import Mathlib

/-!
Verification of the entity-extraction engine of the trump-tyranny-tracker
repository (`src/entities/extract_entities.py` and `src/export/make_entities_json.py`).

Shallow embedding conventions:
* The spaCy NER model (`nlp`) is the external black box of the spec; a story
  field is therefore represented by the list of raw mentions the model returns
  for that field's text, each mention being a pair (surface text, spaCy label).
  A pandas-missing (NaN) field corresponds to the empty mention list, which the
  Python code also turns into an empty per-field dictionary.
* Python dictionaries (which preserve insertion order) are represented as
  association lists: updates rewrite the first matching entry in place, new
  keys are appended at the end.
* The REAL `score` column only ever holds sums of products of the integer
  weights 4/3/2 with capped occurrence counts: non-negative integers, all
  exactly representable in floating point, so it is embedded as `Nat`.
-/

/-- Field weights for score calculation (`FIELD_WEIGHTS` in
`src/entities/extract_entities.py`). -/
def FIELD_WEIGHTS (f : String) : Nat :=
  if f = "item_what_happened" then 4
  else if f = "item_section" then 3
  else if f = "item_why_it_matters" then 3
  else if f = "title" then 2
  else if f = "body" then 2
  else 0

/-- Max appearances to count per field (`MAX_APPEARANCES`). -/
def MAX_APPEARANCES : Nat := 3

/-- Entity types to extract and their mappings (`ENTITY_TYPES`). -/
def ENTITY_TYPES : List (String × String) :=
  [("PERSON", "person"), ("ORG", "organization"), ("GPE", "location"),
   ("PRODUCT", "product"), ("EVENT", "event")]

/-- Common false positives to exclude (`FALSE_POSITIVES`), verbatim from the
source, including the capitalized weekday and month entries. -/
def FALSE_POSITIVES : List String :=
  ["the", "a", "an", "and", "or", "but", "in", "on", "at", "to", "for",
   "of", "with", "by", "from", "as", "is", "was", "are", "were", "be",
   "been", "have", "has", "had", "do", "does", "did", "will", "would",
   "could", "should", "may", "might", "must", "can", "this", "that",
   "these", "those", "it", "its", "they", "them", "their", "there",
   "here", "where", "when", "what", "who", "which", "how", "why",
   "today", "yesterday", "tomorrow", "now", "then", "ago", "later",
   "Monday", "Tuesday", "Wednesday", "Thursday", "Friday", "Saturday", "Sunday",
   "January", "February", "March", "April", "May", "June", "July",
   "August", "September", "October", "November", "December"]

/-- Python `str.lower()` on ASCII letters, implemented over the character
list so that the kernel can evaluate it. -/
def lowerChar (c : Char) : Char :=
  if 65 ≤ c.toNat && c.toNat ≤ 90 then Char.ofNat (c.toNat + 32) else c

/-- Python `str.lower()`. -/
def pyLower (s : String) : String := ⟨s.data.map lowerChar⟩

/-- ASCII whitespace stripped by Python `str.strip()`. -/
def isSpaceChar (c : Char) : Bool :=
  c.toNat = 32 || c.toNat = 9 || c.toNat = 10 || c.toNat = 13 || c.toNat = 11 || c.toNat = 12

/-- Python `str.strip()`, implemented over the character list so that the
kernel can evaluate it. -/
def pyStrip (s : String) : String :=
  ⟨((s.data.dropWhile isSpaceChar).reverse.dropWhile isSpaceChar).reverse⟩

/-- Python `text.replace(' ', '').replace('-', '').replace("'", '').isdigit()`:
after dropping spaces, hyphens and apostrophes (code point 39) the text is
nonempty and all digits. -/
def strippedIsDigits (text : String) : Bool :=
  let s := text.data.filter (fun c => !(c = ' ' || c = '-' || c.toNat = 39))
  !s.isEmpty && s.all Char.isDigit

/-- Python `text[0].isupper()` (`False` on the empty string never being reached,
since the length check comes first). -/
def firstIsUpper (text : String) : Bool :=
  match text.data with
  | [] => false
  | c :: _ => c.isUpper

/-- `is_valid_entity` from `src/entities/extract_entities.py`: the quality
filter applied to each recognized mention's stripped surface text. -/
def is_valid_entity (text : String) : Bool :=
  if text.length < 2 then false
  else if !(firstIsUpper text) then false
  else if FALSE_POSITIVES.contains (pyStrip (pyLower text)) then false
  else if strippedIsDigits text then false
  else if text.length ≤ 2 && !(["US", "UK", "EU", "UN"].contains (pyLower text)) then false
  else true

/-- One step of building the per-field entity dictionary: Python
`entities[entity_text] = (old_type, old_count + 1)` on a hit (the first-seen
type is kept) and `entities[entity_text] = (entity_type, 1)` on a miss
(appended, preserving insertion order). -/
def insertEntity : List (String × String × Nat) → String → String → List (String × String × Nat)
  | [], t, ty => [(t, ty, 1)]
  | (t0, ty0, c0) :: rest, t, ty =>
    if t0 = t then (t0, ty0, c0 + 1) :: rest
    else (t0, ty0, c0) :: insertEntity rest t ty

/-- The loop body of `extract_entities_from_text`: a mention is kept when its
spaCy label is in `ENTITY_TYPES` and its stripped text passes
`is_valid_entity`. -/
def extractStep (es : List (String × String × Nat)) (m : String × String) :
    List (String × String × Nat) :=
  match ENTITY_TYPES.lookup m.2 with
  | some ty =>
    let t := pyStrip m.1
    if is_valid_entity t then insertEntity es t ty else es
  | none => es

/-- `extract_entities_from_text`: fold the recognized mentions of one field,
keeping only labels in `ENTITY_TYPES` whose stripped text passes
`is_valid_entity`, into a dictionary keyed by the stripped surface text. -/
def extract_entities_from_text (ments : List (String × String)) : List (String × String × Nat) :=
  ments.foldl extractStep []

/-- The per-story flag record built by `init_entity_flags` and mutated by the
five per-field loops of `extract_entities`. -/
structure Flags where
  in_item_what_happened : Bool := false
  in_item_section : Bool := false
  in_item_why_it_matters : Bool := false
  in_title : Bool := false
  in_body : Bool := false
  score : Nat := 0
deriving Repr, DecidableEq

/-- Update the per-story dictionary `story_entities` at key `k`, creating the
entry with `init_entity_flags()` defaults when absent (appended at the end,
as Python dict insertion does). -/
def updateSE (se : List ((String × String) × Flags)) (k : String × String)
    (f : Flags → Flags) : List ((String × String) × Flags) :=
  match se with
  | [] => [(k, f {})]
  | (k0, fl) :: rest =>
    if k0 = k then (k0, f fl) :: rest else (k0, fl) :: updateSE rest k f

/-- One per-field loop of `extract_entities`: for each entry of the field's
dictionary, set that field's presence flag and add
`FIELD_WEIGHTS[field] * min(count, MAX_APPEARANCES)` to the running score. -/
def processField (upd : Nat → Flags → Flags) (ents : List (String × String × Nat))
    (se : List ((String × String) × Flags)) : List ((String × String) × Flags) :=
  ents.foldl (fun se e => updateSE se (e.1, e.2.1) (upd e.2.2)) se

/-- The `item_what_happened` loop body. -/
def bumpWhat (c : Nat) (fl : Flags) : Flags :=
  { fl with in_item_what_happened := true,
            score := fl.score + FIELD_WEIGHTS ("item_what_happened") * min c MAX_APPEARANCES }

/-- The `item_section` loop body. -/
def bumpSection (c : Nat) (fl : Flags) : Flags :=
  { fl with in_item_section := true,
            score := fl.score + FIELD_WEIGHTS ("item_section") * min c MAX_APPEARANCES }

/-- The `item_why_it_matters` loop body. -/
def bumpWhy (c : Nat) (fl : Flags) : Flags :=
  { fl with in_item_why_it_matters := true,
            score := fl.score + FIELD_WEIGHTS ("item_why_it_matters") * min c MAX_APPEARANCES }

/-- The `title` loop body. -/
def bumpTitle (c : Nat) (fl : Flags) : Flags :=
  { fl with in_title := true,
            score := fl.score + FIELD_WEIGHTS ("title") * min c MAX_APPEARANCES }

/-- The `body` loop body. -/
def bumpBody (c : Nat) (fl : Flags) : Flags :=
  { fl with in_body := true,
            score := fl.score + FIELD_WEIGHTS ("body") * min c MAX_APPEARANCES }

/-- One story row of the `story` table, carrying per-field raw NER mentions:
the external spaCy model's output for each of the five text fields. A missing
(NaN) field is the empty list. -/
structure Story where
  id : Nat
  item_what_happened : List (String × String)
  item_section : List (String × String)
  item_why_it_matters : List (String × String)
  title : List (String × String)
  body : List (String × String)
deriving Repr, DecidableEq

/-- The `story_entities` dictionary built for one story by the five per-field
loops of `extract_entities`, in the source's field order. -/
def story_entities_of (st : Story) : List ((String × String) × Flags) :=
  processField bumpBody (extract_entities_from_text st.body)
    (processField bumpTitle (extract_entities_from_text st.title)
      (processField bumpWhy (extract_entities_from_text st.item_why_it_matters)
        (processField bumpSection (extract_entities_from_text st.item_section)
          (processField bumpWhat (extract_entities_from_text st.item_what_happened) []))))

/-- One `story_entity` row, in the source's column order. -/
structure Row where
  story_id : Nat
  entity_id : Nat
  score : Nat
  in_item_what_happened : Bool
  in_item_section : Bool
  in_item_why_it_matters : Bool
  in_title : Bool
  in_body : Bool
deriving Repr, DecidableEq

/-- The accumulator state of `extract_entities`: `entity_dict`,
`next_entity_id`, `entity_counts` and `story_entity_rows`. -/
structure BuildState where
  entity_dict : List ((String × String) × Nat)
  next_entity_id : Nat
  entity_counts : List ((String × String) × Nat)
  story_entity_rows : List Row
deriving Repr, DecidableEq

/-- Dictionary lookup on an association list (Python `key in dict` /
`dict[key]`). -/
def dictFind : List ((String × String) × Nat) → (String × String) → Option Nat
  | [], _ => none
  | (k0, v) :: rest, k => if k0 = k then some v else dictFind rest k

/-- `entity_counts[key] += 1` on a `defaultdict(int)`: increment in place, or
append the key with count 1. -/
def bumpCount : List ((String × String) × Nat) → (String × String) → List ((String × String) × Nat)
  | [], k => [(k, 1)]
  | (k0, c) :: rest, k =>
    if k0 = k then (k0, c + 1) :: rest else (k0, c) :: bumpCount rest k

/-- The body of the `for (entity_name, entity_type), flags in story_entities.items()`
loop of `extract_entities`: assign a fresh id when the key is new, bump the
key's document count, and append the story-entity row. -/
def processKey (sid : Nat) (st : BuildState) (k : String × String) (fl : Flags) : BuildState :=
  let st1 :=
    if (dictFind st.entity_dict k).isSome then st
    else { st with entity_dict := st.entity_dict ++ [(k, st.next_entity_id)],
                   next_entity_id := st.next_entity_id + 1 }
  { st1 with
    entity_counts := bumpCount st1.entity_counts k,
    story_entity_rows := st1.story_entity_rows ++
      [⟨sid, (dictFind st1.entity_dict k).getD 0, fl.score,
        fl.in_item_what_happened, fl.in_item_section, fl.in_item_why_it_matters,
        fl.in_title, fl.in_body⟩] }

/-- Processing one story inside `extract_entities`: aggregate its fields, then
fold every `story_entities` entry through `processKey`. -/
def processStory (st : BuildState) (story : Story) : BuildState :=
  (story_entities_of story).foldl (fun s e => processKey story.id s e.1 e.2) st

/-- `extract_entities`: fold all stories, in the (ascending-id) order
`get_stories` returns them, starting from empty dictionaries and
`next_entity_id = 1`. -/
def extract_entities (stories : List Story) : BuildState :=
  stories.foldl processStory ⟨[], 1, [], []⟩

/-- One row of the `entity` table as written by `write_to_database`. -/
structure EntityRow where
  id : Nat
  name : String
  type : String
  count : Nat
  active : Bool
deriving Repr, DecidableEq

/-- The `entity` table contents built by `write_to_database` from
`entity_dict.items()` and `entity_counts`. -/
def entity_table (st : BuildState) : List EntityRow :=
  st.entity_dict.map fun e =>
    ⟨e.2, e.1.1, e.1.2, (dictFind st.entity_counts e.1).getD 0, true⟩

/-- One row of the database view queried by `make_entities_json.py`. -/
structure ViewRow where
  name : String
  type : String
  story_count : Nat
  total_score : Nat
  story_ids : List Nat
deriving Repr, DecidableEq

/-- Modelled from the spec: the database view `entity_stories_view` is not
under src/ (only its caller `src/export/make_entities_json.py` is). Per spec
section 4.7, it yields, for each entity of the catalog (in id order), its
name, type, distinct-document count, `totalScore = Σ score` over the entity's
relation rows, and the document ids referencing it. -/
def entity_stories_view (st : BuildState) : List ViewRow :=
  st.entity_dict.map fun e =>
    let rs := st.story_entity_rows.filter (fun r => r.entity_id = e.2)
    ⟨e.1.1, e.1.2, ((rs.map Row.story_id).dedup).length,
     (rs.map Row.score).sum, rs.map Row.story_id⟩

/-- Insert a view row into a descending-by-score list, after every row of
greater-or-equal score (so equal scores keep their original relative order). -/
def insertByScore : List ViewRow → ViewRow → List ViewRow
  | [], row => [row]
  | x :: xs, row =>
    if x.total_score < row.total_score then row :: x :: xs
    else x :: insertByScore xs row

/-- Modelled from the spec: the SQL `ORDER BY total_score DESC` executed by the
external database engine, which spec section 4.7 requires to sort by
`totalScore` descending with ties kept in insertion/id order (stable), is
embedded as a stable insertion sort. -/
def orderByTotalScoreDesc (l : List ViewRow) : List ViewRow :=
  l.foldl insertByScore []

/-- One emitted autocomplete record of `make_entities_json.py`: exactly the
keys `name`, `type`, `storyIds`, and nothing else (in particular no score). -/
structure ExportRecord where
  name : String
  type : String
  storyIds : List Nat
deriving Repr, DecidableEq

/-- The `main` loop of `src/export/make_entities_json.py`: query the view
ordered by total score descending and emit one compact record per entity. -/
def make_entities_json (st : BuildState) : List ExportRecord :=
  (orderByTotalScoreDesc (entity_stories_view st)).map fun r =>
    ⟨r.name, r.type, r.story_ids⟩

/-! ### Lemmas about the per-field extraction -/

/-- First-match lookup in a per-field entity dictionary, by surface text. -/
def entFind : List (String × String × Nat) → String → Option (String × Nat)
  | [], _ => none
  | (t0, ty0, c0) :: rest, t => if t0 = t then some (ty0, c0) else entFind rest t

/-- A mention survives the label and validity filters. -/
def acceptedB (m : String × String) : Bool :=
  (ENTITY_TYPES.lookup m.2).isSome && is_valid_entity (pyStrip m.1)

/-- Number of accepted mentions of a field whose stripped text is `t`,
irrespective of their labels. -/
def countAcceptedMentions (ms : List (String × String)) (t : String) : Nat :=
  (ms.filter (fun m => acceptedB m && pyStrip m.1 == t)).length

/-- Mapped type of the first accepted mention with stripped text `t`. -/
def firstAcceptedType (ms : List (String × String)) (t : String) : Option String :=
  match ms.find? (fun m => acceptedB m && pyStrip m.1 == t) with
  | some m => ENTITY_TYPES.lookup m.2
  | none => none

theorem entFind_insertEntity_self (es : List (String × String × Nat)) (t ty : String) :
    entFind (insertEntity es t ty) t =
      match entFind es t with
      | some (ty0, c0) => some (ty0, c0 + 1)
      | none => some (ty, 1) := by
  induction es with
  | nil => simp [insertEntity, entFind]
  | cons e rest ih =>
    obtain ⟨t0, ty0, c0⟩ := e
    by_cases h : t0 = t
    · subst h
      simp [insertEntity, entFind]
    · simp [insertEntity, entFind, h, ih]

theorem entFind_insertEntity_ne (es : List (String × String × Nat)) (t ty t' : String)
    (h : t' ≠ t) : entFind (insertEntity es t ty) t' = entFind es t' := by
  induction es with
  | nil =>
    simp only [insertEntity, entFind]
    rw [if_neg (fun hh : t = t' => h hh.symm)]
  | cons e rest ih =>
    obtain ⟨t0, ty0, c0⟩ := e
    by_cases h0 : t0 = t
    · subst h0
      simp only [insertEntity, if_pos rfl, entFind]
      rw [if_neg (fun hh : t0 = t' => h hh.symm), if_neg (fun hh : t0 = t' => h hh.symm)]
    · simp only [insertEntity, if_neg h0, entFind]
      by_cases h1 : t0 = t'
      · rw [if_pos h1, if_pos h1]
      · rw [if_neg h1, if_neg h1, ih]

theorem extractStep_of_accepted (es : List (String × String × Nat)) (m : String × String)
    (ty : String) (hl : ENTITY_TYPES.lookup m.2 = some ty)
    (hv : is_valid_entity (pyStrip m.1) = true) :
    extractStep es m = insertEntity es (pyStrip m.1) ty := by
  simp [extractStep, hl, hv]

theorem extractStep_of_rejected (es : List (String × String × Nat)) (m : String × String)
    (h : acceptedB m = false) : extractStep es m = es := by
  unfold extractStep acceptedB at *
  cases hl : ENTITY_TYPES.lookup m.2 with
  | none => simp
  | some ty =>
    simp only [hl, Option.isSome_some, Bool.true_and] at h
    simp [h]

theorem entFind_extract_go (ms : List (String × String)) :
    ∀ es t, entFind (ms.foldl extractStep es) t =
      match entFind es t with
      | some (ty0, c0) => some (ty0, c0 + countAcceptedMentions ms t)
      | none =>
        match firstAcceptedType ms t with
        | some ty => some (ty, countAcceptedMentions ms t)
        | none => none := by
  induction ms with
  | nil =>
    intro es t
    simp only [List.foldl_nil, countAcceptedMentions, List.filter_nil, List.length_nil,
      firstAcceptedType, List.find?_nil]
    cases entFind es t with
    | none => rfl
    | some p => obtain ⟨ty0, c0⟩ := p; simp
  | cons m rest ih =>
    intro es t
    by_cases ha : acceptedB m = true
    · have hparts : (ENTITY_TYPES.lookup m.2).isSome = true ∧ is_valid_entity (pyStrip m.1) = true := by
        unfold acceptedB at ha
        exact ⟨(Bool.and_eq_true_iff.mp ha).1, (Bool.and_eq_true_iff.mp ha).2⟩
      obtain ⟨ty, hty⟩ := Option.isSome_iff_exists.mp hparts.1
      have hv : is_valid_entity (pyStrip m.1) = true := hparts.2
      by_cases ht : pyStrip m.1 = t
      · have hcnt : countAcceptedMentions (m :: rest) t = countAcceptedMentions rest t + 1 := by
          simp [countAcceptedMentions, List.filter_cons, ha, ht]
        have hfst : firstAcceptedType (m :: rest) t = some ty := by
          simp [firstAcceptedType, List.find?_cons, ha, ht, hty]
        rw [List.foldl_cons, extractStep_of_accepted es m ty hty hv, ht, ih]
        rw [entFind_insertEntity_self]
        simp only [hcnt, hfst]
        cases hef : entFind es t with
        | none => simp [Nat.add_comm]
        | some p =>
          obtain ⟨ty0, c0⟩ := p
          have : c0 + 1 + countAcceptedMentions rest t = c0 + (countAcceptedMentions rest t + 1) := by
            omega
          simp [this]
      · have hcnt : countAcceptedMentions (m :: rest) t = countAcceptedMentions rest t := by
          simp [countAcceptedMentions, List.filter_cons, ha, ht]
        have hfst : firstAcceptedType (m :: rest) t = firstAcceptedType rest t := by
          simp [firstAcceptedType, List.find?_cons, ha, ht]
        rw [List.foldl_cons, extractStep_of_accepted es m ty hty hv, ih,
          entFind_insertEntity_ne es (pyStrip m.1) ty t (fun hh => ht hh.symm)]
        simp only [hcnt, hfst]
    · have ha' : acceptedB m = false := by
        cases hb : acceptedB m
        · rfl
        · exact absurd hb ha
      have hcnt : countAcceptedMentions (m :: rest) t = countAcceptedMentions rest t := by
        simp [countAcceptedMentions, List.filter_cons, ha']
      have hfst : firstAcceptedType (m :: rest) t = firstAcceptedType rest t := by
        simp [firstAcceptedType, List.find?_cons, ha']
      rw [List.foldl_cons, extractStep_of_rejected es m ha', ih]
      simp only [hcnt, hfst]

/-- Full characterization of one field's dictionary: lookup by text yields the
type of the first accepted mention with that text and the total number of
accepted mentions with that text, across all labels. -/
theorem entFind_extract (ms : List (String × String)) (t : String) :
    entFind (extract_entities_from_text ms) t =
      match firstAcceptedType ms t with
      | some ty => some (ty, countAcceptedMentions ms t)
      | none => none := by
  unfold extract_entities_from_text
  rw [entFind_extract_go]
  simp [entFind]

theorem insertEntity_names (es : List (String × String × Nat)) (t ty : String) :
    (insertEntity es t ty).map (fun e => e.1) =
      if (entFind es t).isSome then es.map (fun e => e.1)
      else es.map (fun e => e.1) ++ [t] := by
  induction es with
  | nil => simp [insertEntity, entFind]
  | cons e rest ih =>
    obtain ⟨t0, ty0, c0⟩ := e
    by_cases h : t0 = t
    · subst h
      simp [insertEntity, entFind]
    · simp only [insertEntity, if_neg h, entFind, List.map_cons, ih]
      by_cases h1 : (entFind rest t).isSome
      · rw [if_pos h1, if_pos h1]
      · rw [if_neg h1, if_neg h1]
        simp

theorem entFind_eq_none_iff (es : List (String × String × Nat)) (t : String) :
    entFind es t = none ↔ t ∉ es.map (fun e => e.1) := by
  induction es with
  | nil => simp [entFind]
  | cons e rest ih =>
    obtain ⟨t0, ty0, c0⟩ := e
    by_cases h : t0 = t
    · subst h
      simp [entFind]
    · simp only [entFind, if_neg h, List.map_cons, List.mem_cons, ih]
      constructor
      · intro hn hc
        rcases hc with hc | hc
        · exact h hc.symm
        · exact hn hc
      · intro hn hc
        exact hn (Or.inr hc)

theorem extract_names_nodup (ms : List (String × String)) :
    ((extract_entities_from_text ms).map (fun e => e.1)).Nodup := by
  unfold extract_entities_from_text
  suffices h : ∀ es : List (String × String × Nat),
      (es.map (fun e => e.1)).Nodup → ((ms.foldl extractStep es).map (fun e => e.1)).Nodup by
    exact h [] (by simp)
  induction ms with
  | nil => intro es hes; simpa using hes
  | cons m rest ih =>
    intro es hes
    rw [List.foldl_cons]
    apply ih
    unfold extractStep
    cases hl : ENTITY_TYPES.lookup m.2 with
    | none => exact hes
    | some ty =>
      by_cases hv : is_valid_entity (pyStrip m.1) = true
      · simp only [hv, if_true]
        rw [insertEntity_names]
        by_cases hp : (entFind es (pyStrip m.1)).isSome
        · rw [if_pos hp]; exact hes
        · rw [if_neg hp]
          have : entFind es (pyStrip m.1) = none := by
            cases he : entFind es (pyStrip m.1)
            · rfl
            · rw [he] at hp; simp at hp
          have hnm := (entFind_eq_none_iff es (pyStrip m.1)).mp this
          simp [List.nodup_append, hes, hnm]
      · simp only [Bool.not_eq_true] at hv
        simp [hv, hes]

theorem insertEntity_counts_pos (es : List (String × String × Nat)) (t ty : String)
    (h : ∀ e ∈ es, 1 ≤ e.2.2) : ∀ e ∈ insertEntity es t ty, 1 ≤ e.2.2 := by
  induction es with
  | nil => simp [insertEntity]
  | cons e0 rest ih =>
    obtain ⟨t0, ty0, c0⟩ := e0
    intro e he
    by_cases h0 : t0 = t
    · subst h0
      simp only [insertEntity, if_pos rfl] at he
      rcases List.mem_cons.mp he with he | he
      · subst he; simp
      · exact h e (List.mem_cons_of_mem _ he)
    · simp only [insertEntity, if_neg h0] at he
      rcases List.mem_cons.mp he with he | he
      · subst he; exact h _ (List.mem_cons_self _ _)
      · exact ih (fun e' he' => h e' (List.mem_cons_of_mem _ he')) e he

theorem extract_counts_pos (ms : List (String × String)) :
    ∀ e ∈ extract_entities_from_text ms, 1 ≤ e.2.2 := by
  unfold extract_entities_from_text
  suffices h : ∀ es : List (String × String × Nat),
      (∀ e ∈ es, 1 ≤ e.2.2) → ∀ e ∈ ms.foldl extractStep es, 1 ≤ e.2.2 by
    exact h [] (by simp)
  induction ms with
  | nil => intro es hes; simpa using hes
  | cons m rest ih =>
    intro es hes
    rw [List.foldl_cons]
    apply ih
    unfold extractStep
    cases hl : ENTITY_TYPES.lookup m.2 with
    | none => exact hes
    | some ty =>
      by_cases hv : is_valid_entity (pyStrip m.1) = true
      · simp only [hv, if_true]
        exact insertEntity_counts_pos es (pyStrip m.1) ty hes
      · simp only [Bool.not_eq_true] at hv
        simp only [hv]
        simp only [Bool.false_eq_true, if_false]
        intro a hm
        exact hes a hm

theorem mem_of_entFind (es : List (String × String × Nat)) (t ty : String) (c : Nat)
    (h : entFind es t = some (ty, c)) : (t, ty, c) ∈ es := by
  induction es with
  | nil => simp [entFind] at h
  | cons e rest ih =>
    obtain ⟨t0, ty0, c0⟩ := e
    by_cases h0 : t0 = t
    · subst h0
      simp only [entFind, eq_self_iff_true, if_true, Option.some.injEq, Prod.mk.injEq] at h
      exact List.mem_cons.mpr (Or.inl (by rw [h.1, h.2]))
    · simp only [entFind, if_neg h0] at h
      exact List.mem_cons_of_mem _ (ih h)

theorem entFind_of_mem (es : List (String × String × Nat)) (t ty : String) (c : Nat)
    (hN : (es.map (fun e => e.1)).Nodup) (h : (t, ty, c) ∈ es) :
    entFind es t = some (ty, c) := by
  induction es with
  | nil => simp at h
  | cons e rest ih =>
    obtain ⟨t0, ty0, c0⟩ := e
    rcases List.mem_cons.mp h with he | he
    · have h1 : t = t0 := congrArg Prod.fst he
      have h2 : ty = ty0 := congrArg (fun p => p.2.1) he
      have h3 : c = c0 := congrArg (fun p => p.2.2) he
      subst h1
      simp only [entFind, eq_self_iff_true, if_true]
      rw [h2, h3]
    · have h0 : t0 ≠ t := by
        intro hh
        subst hh
        have : t0 ∈ rest.map (fun e => e.1) := by
          exact List.mem_map.mpr ⟨(t0, ty, c), he, rfl⟩
        simp only [List.map_cons, List.nodup_cons] at hN
        exact hN.1 this
      simp only [entFind, if_neg h0]
      simp only [List.map_cons, List.nodup_cons] at hN
      exact ih hN.2 he

/-- Occurrence lookup the Document Aggregator performs: the per-field count of
the pair `k = (name, type)` is `c` when the field dictionary maps `name` to
exactly `(type, c)`, and absent otherwise. -/
def fieldFind (ents : List (String × String × Nat)) (k : String × String) : Option Nat :=
  match entFind ents k.1 with
  | some (ty0, c0) => if ty0 = k.2 then some c0 else none
  | none => none

/-! ### Lemmas about the per-story Document Aggregator -/

/-- First-match lookup in the `story_entities` dictionary. -/
def seFind : List ((String × String) × Flags) → (String × String) → Option Flags
  | [], _ => none
  | (k0, fl) :: rest, k => if k0 = k then some fl else seFind rest k

theorem seFind_updateSE (se : List ((String × String) × Flags)) (k k' : String × String)
    (f : Flags → Flags) :
    seFind (updateSE se k f) k' =
      if k' = k then some (f ((seFind se k).getD {})) else seFind se k' := by
  induction se with
  | nil =>
    simp only [updateSE, seFind, Option.getD_none]
    by_cases h : k' = k
    · subst h; simp
    · rw [if_neg (fun hh : k = k' => h hh.symm), if_neg h]
  | cons e rest ih =>
    obtain ⟨k0, fl0⟩ := e
    by_cases h0 : k0 = k
    · subst h0
      simp only [updateSE, if_pos rfl, seFind, Option.getD_some]
      by_cases h : k' = k0
      · subst h; simp
      · rw [if_neg (fun hh : k0 = k' => h hh.symm), if_neg (fun hh : k0 = k' => h hh.symm), if_neg h]
    · simp only [updateSE, if_neg h0, seFind]
      by_cases h1 : k0 = k'
      · subst h1
        rw [if_pos rfl, if_pos rfl]
        rw [if_neg (fun hh : k0 = k => h0 hh)]
      · rw [if_neg h1, if_neg h1, ih]

theorem updateSE_keys (se : List ((String × String) × Flags)) (k : String × String)
    (f : Flags → Flags) :
    (updateSE se k f).map (fun e => e.1) =
      if (seFind se k).isSome then se.map (fun e => e.1)
      else se.map (fun e => e.1) ++ [k] := by
  induction se with
  | nil => simp [updateSE, seFind]
  | cons e rest ih =>
    obtain ⟨k0, fl0⟩ := e
    by_cases h0 : k0 = k
    · subst h0
      simp [updateSE, seFind]
    · simp only [updateSE, if_neg h0, seFind, List.map_cons, ih]
      by_cases h1 : (seFind rest k).isSome
      · rw [if_pos h1, if_pos h1]
      · rw [if_neg h1, if_neg h1]
        simp

theorem seFind_eq_none_iff (se : List ((String × String) × Flags)) (k : String × String) :
    seFind se k = none ↔ k ∉ se.map (fun e => e.1) := by
  induction se with
  | nil => simp [seFind]
  | cons e rest ih =>
    obtain ⟨k0, fl0⟩ := e
    by_cases h : k0 = k
    · subst h
      simp [seFind]
    · simp only [seFind, if_neg h, List.map_cons, List.mem_cons, ih]
      constructor
      · intro hn hc
        rcases hc with hc | hc
        · exact h hc.symm
        · exact hn hc
      · intro hn hc
        exact hn (Or.inr hc)

theorem seFind_processField (upd : Nat → Flags → Flags) (ents : List (String × String × Nat)) :
    ∀ se k, (ents.map (fun e => e.1)).Nodup →
      seFind (processField upd ents se) k =
        match fieldFind ents k with
        | some c => some (upd c ((seFind se k).getD {}))
        | none => seFind se k := by
  induction ents with
  | nil => intro se k _; simp [processField, fieldFind, entFind]
  | cons e rest ih =>
    intro se k hN
    obtain ⟨t0, ty0, c0⟩ := e
    simp only [List.map_cons, List.nodup_cons] at hN
    have hstep : processField upd ((t0, ty0, c0) :: rest) se =
        processField upd rest (updateSE se (t0, ty0) (upd c0)) := by
      simp [processField]
    rw [hstep, ih _ k hN.2]
    by_cases hk : k.1 = t0
    · have hrest : entFind rest k.1 = none := by
        rw [entFind_eq_none_iff]
        rw [hk]
        exact hN.1
      have hfrest : fieldFind rest k = none := by
        simp [fieldFind, hrest]
      by_cases hty : k.2 = ty0
      · have hkey : k = (t0, ty0) := by
          obtain ⟨k1, k2⟩ := k
          simp only at hk hty
          rw [hk, hty]
        have hf : fieldFind ((t0, ty0, c0) :: rest) k = some c0 := by
          simp [fieldFind, entFind, hk, hty.symm]
        rw [hfrest, hf, seFind_updateSE]
        rw [if_pos hkey, hkey]
      · have hf : fieldFind ((t0, ty0, c0) :: rest) k = none := by
          simp only [fieldFind, entFind]
          rw [if_pos hk.symm]
          show (if ty0 = k.2 then some c0 else none) = none
          rw [if_neg (fun hh : ty0 = k.2 => hty hh.symm)]
        have hkey : k ≠ (t0, ty0) := by
          intro hh
          exact hty (congrArg Prod.snd hh)
        rw [hfrest, hf, seFind_updateSE, if_neg hkey]
    · have hf : fieldFind ((t0, ty0, c0) :: rest) k = fieldFind rest k := by
        simp only [fieldFind, entFind]
        rw [if_neg (fun hh : t0 = k.1 => hk hh.symm)]
      have hkey : k ≠ (t0, ty0) := by
        intro hh
        exact hk (congrArg Prod.fst hh)
      rw [hf, seFind_updateSE, if_neg hkey]

theorem processField_keys_nodup (upd : Nat → Flags → Flags) (ents : List (String × String × Nat)) :
    ∀ se, ((se.map (fun e => e.1)).Nodup) →
      (((processField upd ents se).map (fun e => e.1)).Nodup) := by
  induction ents with
  | nil => intro se h; simpa [processField] using h
  | cons e rest ih =>
    intro se h
    obtain ⟨t0, ty0, c0⟩ := e
    have hstep : processField upd ((t0, ty0, c0) :: rest) se =
        processField upd rest (updateSE se (t0, ty0) (upd c0)) := by
      simp [processField]
    rw [hstep]
    apply ih
    rw [updateSE_keys]
    by_cases h1 : (seFind se (t0, ty0)).isSome
    · rw [if_pos h1]; exact h
    · rw [if_neg h1]
      have : seFind se (t0, ty0) = none := by
        cases he : seFind se (t0, ty0)
        · rfl
        · rw [he] at h1; simp at h1
      have hnm := (seFind_eq_none_iff se (t0, ty0)).mp this
      simp [List.nodup_append, h, hnm]

/-- Weighted, capped contribution of one field to a relation row's score:
`fieldWeight * min(occurrences, cap)` when the entity occurs in the field,
`0` otherwise. -/
def contrib (w : Nat) (o : Option Nat) : Nat :=
  match o with
  | some c => w * min c MAX_APPEARANCES
  | none => 0

/-- The flag record the Document Aggregator produces for key `k`, expressed
directly from the five per-field occurrence lookups. -/
def expectedFlags (ow os oy ot ob : Option Nat) : Flags :=
  ⟨ow.isSome, os.isSome, oy.isSome, ot.isSome, ob.isSome,
   contrib (FIELD_WEIGHTS ("item_what_happened")) ow +
   contrib (FIELD_WEIGHTS ("item_section")) os +
   contrib (FIELD_WEIGHTS ("item_why_it_matters")) oy +
   contrib (FIELD_WEIGHTS ("title")) ot +
   contrib (FIELD_WEIGHTS ("body")) ob⟩

theorem seFind_story_entities (st : Story) (k : String × String) :
    seFind (story_entities_of st) k =
      (let ow := fieldFind (extract_entities_from_text st.item_what_happened) k
       let os := fieldFind (extract_entities_from_text st.item_section) k
       let oy := fieldFind (extract_entities_from_text st.item_why_it_matters) k
       let ot := fieldFind (extract_entities_from_text st.title) k
       let ob := fieldFind (extract_entities_from_text st.body) k
       if ow.isSome || os.isSome || oy.isSome || ot.isSome || ob.isSome then
         some (expectedFlags ow os oy ot ob)
       else none) := by
  unfold story_entities_of
  rw [seFind_processField bumpBody _ _ _ (extract_names_nodup st.body),
      seFind_processField bumpTitle _ _ _ (extract_names_nodup st.title),
      seFind_processField bumpWhy _ _ _ (extract_names_nodup st.item_why_it_matters),
      seFind_processField bumpSection _ _ _ (extract_names_nodup st.item_section),
      seFind_processField bumpWhat _ _ _ (extract_names_nodup st.item_what_happened)]
  simp only [seFind]
  cases fieldFind (extract_entities_from_text st.item_what_happened) k with
  | none =>
    cases fieldFind (extract_entities_from_text st.item_section) k with
    | none =>
      cases fieldFind (extract_entities_from_text st.item_why_it_matters) k with
      | none =>
        cases fieldFind (extract_entities_from_text st.title) k with
        | none =>
          cases fieldFind (extract_entities_from_text st.body) k with
          | none => simp [expectedFlags, contrib]
          | some c => simp [expectedFlags, contrib, bumpBody]
        | some c =>
          cases fieldFind (extract_entities_from_text st.body) k with
          | none => simp [expectedFlags, contrib, bumpTitle]
          | some d => simp [expectedFlags, contrib, bumpTitle, bumpBody]
      | some c =>
        cases fieldFind (extract_entities_from_text st.title) k with
        | none =>
          cases fieldFind (extract_entities_from_text st.body) k with
          | none => simp [expectedFlags, contrib, bumpWhy]
          | some d => simp [expectedFlags, contrib, bumpWhy, bumpBody]
        | some d =>
          cases fieldFind (extract_entities_from_text st.body) k with
          | none => simp [expectedFlags, contrib, bumpWhy, bumpTitle]
          | some e => simp [expectedFlags, contrib, bumpWhy, bumpTitle, bumpBody]
    | some c =>
      cases fieldFind (extract_entities_from_text st.item_why_it_matters) k with
      | none =>
        cases fieldFind (extract_entities_from_text st.title) k with
        | none =>
          cases fieldFind (extract_entities_from_text st.body) k with
          | none => simp [expectedFlags, contrib, bumpSection]
          | some d => simp [expectedFlags, contrib, bumpSection, bumpBody]
        | some d =>
          cases fieldFind (extract_entities_from_text st.body) k with
          | none => simp [expectedFlags, contrib, bumpSection, bumpTitle]
          | some e => simp [expectedFlags, contrib, bumpSection, bumpTitle, bumpBody]
      | some d =>
        cases fieldFind (extract_entities_from_text st.title) k with
        | none =>
          cases fieldFind (extract_entities_from_text st.body) k with
          | none => simp [expectedFlags, contrib, bumpSection, bumpWhy]
          | some e => simp [expectedFlags, contrib, bumpSection, bumpWhy, bumpBody]
        | some e =>
          cases fieldFind (extract_entities_from_text st.body) k with
          | none => simp [expectedFlags, contrib, bumpSection, bumpWhy, bumpTitle]
          | some f => simp [expectedFlags, contrib, bumpSection, bumpWhy, bumpTitle, bumpBody]
  | some c =>
    cases fieldFind (extract_entities_from_text st.item_section) k with
    | none =>
      cases fieldFind (extract_entities_from_text st.item_why_it_matters) k with
      | none =>
        cases fieldFind (extract_entities_from_text st.title) k with
        | none =>
          cases fieldFind (extract_entities_from_text st.body) k with
          | none => simp [expectedFlags, contrib, bumpWhat]
          | some d => simp [expectedFlags, contrib, bumpWhat, bumpBody]
        | some d =>
          cases fieldFind (extract_entities_from_text st.body) k with
          | none => simp [expectedFlags, contrib, bumpWhat, bumpTitle]
          | some e => simp [expectedFlags, contrib, bumpWhat, bumpTitle, bumpBody]
      | some d =>
        cases fieldFind (extract_entities_from_text st.title) k with
        | none =>
          cases fieldFind (extract_entities_from_text st.body) k with
          | none => simp [expectedFlags, contrib, bumpWhat, bumpWhy]
          | some e => simp [expectedFlags, contrib, bumpWhat, bumpWhy, bumpBody]
        | some e =>
          cases fieldFind (extract_entities_from_text st.body) k with
          | none => simp [expectedFlags, contrib, bumpWhat, bumpWhy, bumpTitle]
          | some f => simp [expectedFlags, contrib, bumpWhat, bumpWhy, bumpTitle, bumpBody]
    | some d =>
      cases fieldFind (extract_entities_from_text st.item_why_it_matters) k with
      | none =>
        cases fieldFind (extract_entities_from_text st.title) k with
        | none =>
          cases fieldFind (extract_entities_from_text st.body) k with
          | none => simp [expectedFlags, contrib, bumpWhat, bumpSection]
          | some e => simp [expectedFlags, contrib, bumpWhat, bumpSection, bumpBody]
        | some e =>
          cases fieldFind (extract_entities_from_text st.body) k with
          | none => simp [expectedFlags, contrib, bumpWhat, bumpSection, bumpTitle]
          | some f => simp [expectedFlags, contrib, bumpWhat, bumpSection, bumpTitle, bumpBody]
      | some e =>
        cases fieldFind (extract_entities_from_text st.title) k with
        | none =>
          cases fieldFind (extract_entities_from_text st.body) k with
          | none => simp [expectedFlags, contrib, bumpWhat, bumpSection, bumpWhy]
          | some f => simp [expectedFlags, contrib, bumpWhat, bumpSection, bumpWhy, bumpBody]
        | some f =>
          cases fieldFind (extract_entities_from_text st.body) k with
          | none => simp [expectedFlags, contrib, bumpWhat, bumpSection, bumpWhy, bumpTitle]
          | some g =>
            simp [expectedFlags, contrib, bumpWhat, bumpSection, bumpWhy, bumpTitle, bumpBody]

theorem story_entities_keys_nodup (st : Story) :
    (((story_entities_of st).map (fun e => e.1)).Nodup) := by
  unfold story_entities_of
  apply processField_keys_nodup
  apply processField_keys_nodup
  apply processField_keys_nodup
  apply processField_keys_nodup
  apply processField_keys_nodup
  simp

theorem seFind_of_mem_se (se : List ((String × String) × Flags)) (k : String × String)
    (fl : Flags) (hN : ((se.map (fun e => e.1)).Nodup)) (h : (k, fl) ∈ se) :
    seFind se k = some fl := by
  induction se with
  | nil => simp at h
  | cons e rest ih =>
    obtain ⟨k0, fl0⟩ := e
    rcases List.mem_cons.mp h with he | he
    · have h1 : k = k0 := congrArg Prod.fst he
      have h2 : fl = fl0 := congrArg Prod.snd he
      subst h1
      simp only [seFind, eq_self_iff_true, if_true]
      rw [h2]
    · have h0 : k0 ≠ k := by
        intro hh
        subst hh
        have : k0 ∈ rest.map (fun e => e.1) := List.mem_map.mpr ⟨(k0, fl), he, rfl⟩
        simp only [List.map_cons, List.nodup_cons] at hN
        exact hN.1 this
      simp only [seFind, if_neg h0]
      simp only [List.map_cons, List.nodup_cons] at hN
      exact ih hN.2 he

theorem mem_se_of_seFind (se : List ((String × String) × Flags)) (k : String × String)
    (fl : Flags) (h : seFind se k = some fl) : (k, fl) ∈ se := by
  induction se with
  | nil => simp [seFind] at h
  | cons e rest ih =>
    obtain ⟨k0, fl0⟩ := e
    by_cases h0 : k0 = k
    · subst h0
      simp only [seFind, eq_self_iff_true, if_true, Option.some.injEq] at h
      exact List.mem_cons.mpr (Or.inl (by rw [h]))
    · simp only [seFind, if_neg h0] at h
      exact List.mem_cons_of_mem _ (ih h)

/-! ### Lemmas about the cross-document build -/

/-- The `story_entity` row appended for entry `e` of `story_entities`, with the
entity id read from dictionary `d`. -/
def rowOf (d : List ((String × String) × Nat)) (sid : Nat) (e : (String × String) × Flags) : Row :=
  ⟨sid, (dictFind d e.1).getD 0, e.2.score,
   e.2.in_item_what_happened, e.2.in_item_section, e.2.in_item_why_it_matters,
   e.2.in_title, e.2.in_body⟩

theorem dictFind_append_single (d : List ((String × String) × Nat)) (k k' : String × String)
    (v : Nat) :
    dictFind (d ++ [(k', v)]) k =
      match dictFind d k with
      | some w => some w
      | none => if k' = k then some v else none := by
  induction d with
  | nil => simp [dictFind]
  | cons e rest ih =>
    obtain ⟨k0, v0⟩ := e
    by_cases h : k0 = k
    · subst h
      simp [dictFind]
    · simp only [List.cons_append, dictFind, if_neg h]
      exact ih

theorem dictFind_isSome_iff (d : List ((String × String) × Nat)) (k : String × String) :
    (dictFind d k).isSome = true ↔ k ∈ d.map (fun e => e.1) := by
  induction d with
  | nil => simp [dictFind]
  | cons e rest ih =>
    obtain ⟨k0, v0⟩ := e
    by_cases h : k0 = k
    · subst h
      simp [dictFind]
    · simp only [dictFind, if_neg h, List.map_cons, List.mem_cons, ih]
      constructor
      · intro hh; exact Or.inr hh
      · intro hh
        rcases hh with hh | hh
        · exact absurd hh.symm h
        · exact hh

theorem dictFind_mem (d : List ((String × String) × Nat)) (k : String × String) (v : Nat)
    (h : dictFind d k = some v) : (k, v) ∈ d := by
  induction d with
  | nil => simp [dictFind] at h
  | cons e rest ih =>
    obtain ⟨k0, v0⟩ := e
    by_cases h0 : k0 = k
    · subst h0
      simp only [dictFind, eq_self_iff_true, if_true, Option.some.injEq] at h
      exact List.mem_cons.mpr (Or.inl (by rw [h]))
    · simp only [dictFind, if_neg h0] at h
      exact List.mem_cons_of_mem _ (ih h)

theorem dictFind_of_mem (d : List ((String × String) × Nat)) (k : String × String) (v : Nat)
    (hN : ((d.map (fun e => e.1)).Nodup)) (h : (k, v) ∈ d) : dictFind d k = some v := by
  induction d with
  | nil => simp at h
  | cons e rest ih =>
    obtain ⟨k0, v0⟩ := e
    rcases List.mem_cons.mp h with he | he
    · have h1 : k = k0 := congrArg Prod.fst he
      have h2 : v = v0 := congrArg Prod.snd he
      subst h1
      simp only [dictFind, eq_self_iff_true, if_true]
      rw [h2]
    · have h0 : k0 ≠ k := by
        intro hh
        subst hh
        have : k0 ∈ rest.map (fun e => e.1) := List.mem_map.mpr ⟨(k0, v), he, rfl⟩
        simp only [List.map_cons, List.nodup_cons] at hN
        exact hN.1 this
      simp only [dictFind, if_neg h0]
      simp only [List.map_cons, List.nodup_cons] at hN
      exact ih hN.2 he

theorem bumpCount_self (cs : List ((String × String) × Nat)) (k : String × String) :
    dictFind (bumpCount cs k) k = some ((dictFind cs k).getD 0 + 1) := by
  induction cs with
  | nil => simp [bumpCount, dictFind]
  | cons e rest ih =>
    obtain ⟨k0, c0⟩ := e
    by_cases h : k0 = k
    · subst h
      simp [bumpCount, dictFind]
    · simp only [bumpCount, if_neg h, dictFind, ih]

theorem bumpCount_other (cs : List ((String × String) × Nat)) (k k' : String × String)
    (h : k' ≠ k) : dictFind (bumpCount cs k) k' = dictFind cs k' := by
  induction cs with
  | nil =>
    simp only [bumpCount, dictFind]
    rw [if_neg (fun hh : k = k' => h hh.symm)]
  | cons e rest ih =>
    obtain ⟨k0, c0⟩ := e
    by_cases h0 : k0 = k
    · subst h0
      simp only [bumpCount, eq_self_iff_true, if_true, dictFind]
      rw [if_neg (fun hh : k0 = k' => h hh.symm), if_neg (fun hh : k0 = k' => h hh.symm)]
    · simp only [bumpCount, if_neg h0, dictFind]
      by_cases h1 : k0 = k'
      · rw [if_pos h1, if_pos h1]
      · rw [if_neg h1, if_neg h1, ih]

theorem processKey_dict (sid : Nat) (st : BuildState) (k : String × String) (fl : Flags) :
    (processKey sid st k fl).entity_dict =
      if (dictFind st.entity_dict k).isSome then st.entity_dict
      else st.entity_dict ++ [(k, st.next_entity_id)] := by
  unfold processKey
  by_cases h : (dictFind st.entity_dict k).isSome
  · rw [if_pos h, if_pos h]
  · rw [if_neg h, if_neg h]

theorem processKey_next (sid : Nat) (st : BuildState) (k : String × String) (fl : Flags) :
    (processKey sid st k fl).next_entity_id =
      if (dictFind st.entity_dict k).isSome then st.next_entity_id
      else st.next_entity_id + 1 := by
  unfold processKey
  by_cases h : (dictFind st.entity_dict k).isSome
  · rw [if_pos h, if_pos h]
  · rw [if_neg h, if_neg h]

theorem processKey_counts (sid : Nat) (st : BuildState) (k : String × String) (fl : Flags) :
    (processKey sid st k fl).entity_counts = bumpCount st.entity_counts k := by
  unfold processKey
  by_cases h : (dictFind st.entity_dict k).isSome
  · rw [if_pos h]
  · rw [if_neg h]

theorem processKey_rows (sid : Nat) (st : BuildState) (k : String × String) (fl : Flags) :
    (processKey sid st k fl).story_entity_rows =
      st.story_entity_rows ++ [rowOf (processKey sid st k fl).entity_dict sid (k, fl)] := by
  unfold processKey rowOf
  by_cases h : (dictFind st.entity_dict k).isSome
  · rw [if_pos h]
  · rw [if_neg h]

theorem processKey_present (sid : Nat) (st : BuildState) (k : String × String) (fl : Flags) :
    ((dictFind (processKey sid st k fl).entity_dict k).isSome) = true := by
  rw [processKey_dict]
  by_cases h : (dictFind st.entity_dict k).isSome
  · rw [if_pos h]; exact h
  · rw [if_neg h]
    have hn : dictFind st.entity_dict k = none := by
      cases he : dictFind st.entity_dict k
      · rfl
      · rw [he] at h; simp at h
    rw [dictFind_append_single, hn]
    simp

theorem processKey_mono (sid : Nat) (st : BuildState) (k k' : String × String) (fl : Flags)
    (v : Nat) (h : dictFind st.entity_dict k' = some v) :
    dictFind (processKey sid st k fl).entity_dict k' = some v := by
  rw [processKey_dict]
  by_cases hp : (dictFind st.entity_dict k).isSome
  · rw [if_pos hp]; exact h
  · rw [if_neg hp, dictFind_append_single, h]

/-- The fold of `processKey` over a `story_entities` list (the inner loop of
`extract_entities` for one story). -/
def processSE (sid : Nat) (st : BuildState) (se : List ((String × String) × Flags)) : BuildState :=
  se.foldl (fun s e => processKey sid s e.1 e.2) st

theorem processStory_eq (st : BuildState) (story : Story) :
    processStory st story = processSE story.id st (story_entities_of story) := rfl

theorem processSE_mono (sid : Nat) (se : List ((String × String) × Flags)) :
    ∀ st k v, dictFind st.entity_dict k = some v →
      dictFind (processSE sid st se).entity_dict k = some v := by
  induction se with
  | nil => intro st k v h; exact h
  | cons e rest ih =>
    intro st k v h
    exact ih _ k v (processKey_mono sid st e.1 k e.2 v h)

theorem processSE_present (sid : Nat) (se : List ((String × String) × Flags)) :
    ∀ st, ∀ e ∈ se, ((dictFind (processSE sid st se).entity_dict e.1).isSome) = true := by
  induction se with
  | nil => intro st e he; simp at he
  | cons e0 rest ih =>
    intro st e he
    rcases List.mem_cons.mp he with he | he
    · subst he
      have h1 := processKey_present sid st e.1 e.2
      obtain ⟨v, hv⟩ := Option.isSome_iff_exists.mp h1
      have h2 := processSE_mono sid rest (processKey sid st e.1 e.2) e.1 v hv
      have hstep : processSE sid st (e :: rest) = processSE sid (processKey sid st e.1 e.2) rest := by
        simp [processSE]
      rw [hstep, h2]
      rfl
    · exact ih (processKey sid st e0.1 e0.2) e he

theorem processSE_rows (sid : Nat) (se : List ((String × String) × Flags)) :
    ∀ st, (processSE sid st se).story_entity_rows =
      st.story_entity_rows ++ se.map (rowOf (processSE sid st se).entity_dict sid) := by
  induction se with
  | nil => intro st; simp [processSE]
  | cons e rest ih =>
    intro st
    have hstep : processSE sid st (e :: rest) = processSE sid (processKey sid st e.1 e.2) rest := by
      simp [processSE]
    rw [hstep, ih (processKey sid st e.1 e.2)]
    rw [processKey_rows]
    have hrow : rowOf (processKey sid st e.1 e.2).entity_dict sid (e.1, e.2) =
        rowOf (processSE sid (processKey sid st e.1 e.2) rest).entity_dict sid e := by
      obtain ⟨v, hv⟩ := Option.isSome_iff_exists.mp (processKey_present sid st e.1 e.2)
      have h2 := processSE_mono sid rest (processKey sid st e.1 e.2) e.1 v hv
      simp [rowOf, hv, h2]
    rw [hrow]
    simp

/-- First-seen accumulation of keys: a key already present is skipped, a new
key is appended, mirroring the `if key not in entity_dict` branch. -/
def addKeys (d : List (String × String)) (ks : List (String × String)) : List (String × String) :=
  ks.foldl (fun d k => if k ∈ d then d else d ++ [k]) d

theorem processSE_keys (sid : Nat) (se : List ((String × String) × Flags)) :
    ∀ st, (processSE sid st se).entity_dict.map (fun e => e.1) =
      addKeys (st.entity_dict.map (fun e => e.1)) (se.map (fun e => e.1)) := by
  induction se with
  | nil => intro st; simp [processSE, addKeys]
  | cons e rest ih =>
    intro st
    have hstep : processSE sid st (e :: rest) = processSE sid (processKey sid st e.1 e.2) rest := by
      simp [processSE]
    have hadd : addKeys (st.entity_dict.map (fun e => e.1)) ((e :: rest).map (fun e => e.1)) =
        addKeys ((processKey sid st e.1 e.2).entity_dict.map (fun e => e.1))
          (rest.map (fun e => e.1)) := by
      simp only [List.map_cons, addKeys, List.foldl_cons]
      rw [processKey_dict]
      by_cases h : (dictFind st.entity_dict e.1).isSome
      · rw [if_pos h, if_pos ((dictFind_isSome_iff st.entity_dict e.1).mp h)]
      · have hnm : e.1 ∉ st.entity_dict.map (fun e => e.1) := by
          intro hc
          exact h ((dictFind_isSome_iff st.entity_dict e.1).mpr hc)
        rw [if_neg h, if_neg hnm]
        simp
    rw [hstep, ih, hadd]

theorem processSE_next (sid : Nat) (se : List ((String × String) × Flags)) :
    ∀ st, (st.next_entity_id = st.entity_dict.length + 1 ∧
           st.entity_dict.map (fun e => e.2) = List.range' 1 st.entity_dict.length) →
      (processSE sid st se).next_entity_id = (processSE sid st se).entity_dict.length + 1 ∧
      (processSE sid st se).entity_dict.map (fun e => e.2) =
        List.range' 1 (processSE sid st se).entity_dict.length := by
  induction se with
  | nil => intro st h; exact h
  | cons e rest ih =>
    intro st h
    apply ih
    rw [processKey_dict, processKey_next]
    by_cases hp : (dictFind st.entity_dict e.1).isSome
    · rw [if_pos hp, if_pos hp]
      exact h
    · rw [if_neg hp, if_neg hp]
      constructor
      · simp [h.1]
      · simp only [List.map_append, List.length_append, List.map_cons, List.map_nil,
          List.length_cons, List.length_nil]
        rw [h.2, h.1]
        have := List.range'_1_concat 1 st.entity_dict.length
        simp only [Nat.add_comm 1 st.entity_dict.length] at this
        rw [← this]

theorem foldl_stories_mono (l : List Story) :
    ∀ st k v, dictFind st.entity_dict k = some v →
      dictFind (l.foldl processStory st).entity_dict k = some v := by
  induction l with
  | nil => intro st k v h; exact h
  | cons s rest ih =>
    intro st k v h
    rw [List.foldl_cons]
    exact ih _ k v (by rw [processStory_eq]; exact processSE_mono s.id _ st k v h)

theorem foldl_stories_rows (l : List Story) :
    ∀ st, (l.foldl processStory st).story_entity_rows =
      st.story_entity_rows ++ l.flatMap (fun s =>
        (story_entities_of s).map (rowOf (l.foldl processStory st).entity_dict s.id)) := by
  induction l with
  | nil => intro st; simp
  | cons s rest ih =>
    intro st
    rw [List.foldl_cons, ih (processStory st s)]
    have h1 : (processStory st s).story_entity_rows =
        st.story_entity_rows ++ (story_entities_of s).map
          (rowOf (processStory st s).entity_dict s.id) := by
      rw [processStory_eq]
      exact processSE_rows s.id (story_entities_of s) st
    rw [h1]
    have h2 : (story_entities_of s).map (rowOf (processStory st s).entity_dict s.id) =
        (story_entities_of s).map
          (rowOf (rest.foldl processStory (processStory st s)).entity_dict s.id) := by
      apply List.map_congr_left
      intro e he
      have hp : ((dictFind (processStory st s).entity_dict e.1).isSome) = true := by
        rw [processStory_eq]
        exact processSE_present s.id (story_entities_of s) st e he
      obtain ⟨v, hv⟩ := Option.isSome_iff_exists.mp hp
      have hm := foldl_stories_mono rest (processStory st s) e.1 v hv
      simp [rowOf, hv, hm]
    rw [h2]
    simp [List.flatMap_cons, List.append_assoc]

/-- Keys of the five per-field dictionaries of one story, in the order the
Document Aggregator visits them. -/
def storyKeys (s : Story) : List (String × String) :=
  (story_entities_of s).map (fun e => e.1)

theorem foldl_stories_keys (l : List Story) :
    ∀ st, (l.foldl processStory st).entity_dict.map (fun e => e.1) =
      addKeys (st.entity_dict.map (fun e => e.1)) (l.flatMap storyKeys) := by
  induction l with
  | nil => intro st; simp [addKeys]
  | cons s rest ih =>
    intro st
    rw [List.foldl_cons, ih (processStory st s)]
    have h1 : (processStory st s).entity_dict.map (fun e => e.1) =
        addKeys (st.entity_dict.map (fun e => e.1)) (storyKeys s) := by
      rw [processStory_eq]
      exact processSE_keys s.id (story_entities_of s) st
    rw [h1]
    simp only [List.flatMap_cons, addKeys, List.foldl_append]

theorem foldl_stories_ids (l : List Story) :
    ∀ st, (st.next_entity_id = st.entity_dict.length + 1 ∧
           st.entity_dict.map (fun e => e.2) = List.range' 1 st.entity_dict.length) →
      (l.foldl processStory st).next_entity_id = (l.foldl processStory st).entity_dict.length + 1 ∧
      (l.foldl processStory st).entity_dict.map (fun e => e.2) =
        List.range' 1 (l.foldl processStory st).entity_dict.length := by
  induction l with
  | nil => intro st h; exact h
  | cons s rest ih =>
    intro st h
    rw [List.foldl_cons]
    apply ih
    rw [processStory_eq]
    exact processSE_next s.id (story_entities_of s) st h

theorem extract_entities_ids (stories : List Story) :
    (extract_entities stories).next_entity_id = (extract_entities stories).entity_dict.length + 1 ∧
    (extract_entities stories).entity_dict.map (fun e => e.2) =
      List.range' 1 (extract_entities stories).entity_dict.length := by
  unfold extract_entities
  exact foldl_stories_ids stories ⟨[], 1, [], []⟩ (by simp)

theorem extract_entities_keys (stories : List Story) :
    (extract_entities stories).entity_dict.map (fun e => e.1) =
      addKeys [] (stories.flatMap storyKeys) := by
  unfold extract_entities
  have := foldl_stories_keys stories ⟨[], 1, [], []⟩
  simpa using this

theorem extract_entities_rows (stories : List Story) :
    (extract_entities stories).story_entity_rows =
      stories.flatMap (fun s =>
        (story_entities_of s).map (rowOf (extract_entities stories).entity_dict s.id)) := by
  unfold extract_entities
  have := foldl_stories_rows stories ⟨[], 1, [], []⟩
  simpa using this

theorem addKeys_nodup (ks : List (String × String)) :
    ∀ d, d.Nodup → (addKeys d ks).Nodup := by
  induction ks with
  | nil => intro d h; exact h
  | cons k rest ih =>
    intro d h
    simp only [addKeys, List.foldl_cons]
    by_cases hm : k ∈ d
    · rw [if_pos hm]
      exact ih d h
    · rw [if_neg hm]
      apply ih
      simp [List.nodup_append, h, hm]

theorem extract_entities_keys_nodup (stories : List Story) :
    ((extract_entities stories).entity_dict.map (fun e => e.1)).Nodup := by
  rw [extract_entities_keys]
  exact addKeys_nodup _ [] (by simp)

theorem extract_entities_ids_nodup (stories : List Story) :
    ((extract_entities stories).entity_dict.map (fun e => e.2)).Nodup := by
  rw [(extract_entities_ids stories).2]
  exact List.nodup_range' 1 _

/-- Invariant of the `extract_entities` accumulator tying `entity_dict`,
`next_entity_id`, `entity_counts` and `story_entity_rows` together. -/
structure BuildInv (st : BuildState) : Prop where
  next_eq : st.next_entity_id = st.entity_dict.length + 1
  ids_range : st.entity_dict.map (fun e => e.2) = List.range' 1 st.entity_dict.length
  counts_none : ∀ k, dictFind st.entity_dict k = none → dictFind st.entity_counts k = none
  rows_eid_mem : ∀ r ∈ st.story_entity_rows, r.entity_id ∈ st.entity_dict.map (fun e => e.2)
  counts_rows : ∀ k i, dictFind st.entity_dict k = some i →
    (dictFind st.entity_counts k).getD 0 =
      (st.story_entity_rows.filter (fun r => r.entity_id = i)).length
  counts_pos : ∀ k i, dictFind st.entity_dict k = some i →
    1 ≤ (dictFind st.entity_counts k).getD 0

theorem dict_id_inj (st : BuildState) (hI : BuildInv st) (k1 k2 : String × String) (i : Nat)
    (h1 : dictFind st.entity_dict k1 = some i) (h2 : dictFind st.entity_dict k2 = some i) :
    k1 = k2 := by
  have hN : (st.entity_dict.map (fun e => e.2)).Nodup := by
    rw [hI.ids_range]; exact List.nodup_range' 1 _
  have hm1 := dictFind_mem _ _ _ h1
  have hm2 := dictFind_mem _ _ _ h2
  have := List.inj_on_of_nodup_map hN hm1 hm2 rfl
  exact congrArg Prod.fst this

theorem id_lt_next (st : BuildState) (hI : BuildInv st) (k : String × String) (i : Nat)
    (h : dictFind st.entity_dict k = some i) : i < st.next_entity_id := by
  have hm := dictFind_mem _ _ _ h
  have hmem : i ∈ st.entity_dict.map (fun e => e.2) := List.mem_map.mpr ⟨(k, i), hm, rfl⟩
  rw [hI.ids_range] at hmem
  have h1 := List.mem_range'_1.mp hmem
  have h2 := hI.next_eq
  omega

theorem processKey_inv (sid : Nat) (st : BuildState) (k : String × String) (fl : Flags)
    (hI : BuildInv st) : BuildInv (processKey sid st k fl) := by
  by_cases hp : (dictFind st.entity_dict k).isSome
  · obtain ⟨i0, hi0⟩ := Option.isSome_iff_exists.mp hp
    have hdict : (processKey sid st k fl).entity_dict = st.entity_dict := by
      rw [processKey_dict, if_pos hp]
    have hnext : (processKey sid st k fl).next_entity_id = st.next_entity_id := by
      rw [processKey_next, if_pos hp]
    have hrow : (processKey sid st k fl).story_entity_rows =
        st.story_entity_rows ++ [rowOf st.entity_dict sid (k, fl)] := by
      rw [processKey_rows, hdict]
    constructor
    · rw [hnext, hdict]; exact hI.next_eq
    · rw [hdict]; exact hI.ids_range
    · intro k' h'
      rw [hdict] at h'
      rw [processKey_counts]
      have hk' : k' ≠ k := by
        intro hh; subst hh; rw [h'] at hi0; exact Option.noConfusion hi0
      rw [bumpCount_other _ _ _ hk']
      exact hI.counts_none k' h'
    · intro r hr
      rw [hdict]
      rw [hrow] at hr
      rcases List.mem_append.mp hr with hr | hr
      · exact hI.rows_eid_mem r hr
      · simp only [List.mem_singleton] at hr
        subst hr
        simp only [rowOf, hi0, Option.getD_some]
        exact List.mem_map.mpr ⟨(k, i0), dictFind_mem _ _ _ hi0, rfl⟩
    · intro k' i' h'
      rw [hdict] at h'
      rw [processKey_counts, hrow]
      by_cases hk' : k' = k
      · subst hk'
        have hii : i' = i0 := Option.some.inj (h'.symm.trans hi0)
        subst hii
        rw [bumpCount_self]
        simp only [Option.getD_some]
        rw [hI.counts_rows k' i' h']
        rw [List.filter_append]
        have hsing : List.filter (fun r => decide (r.entity_id = i'))
            [rowOf st.entity_dict sid (k', fl)] = [rowOf st.entity_dict sid (k', fl)] := by
          simp [rowOf, hi0]
        rw [hsing]
        simp
      · rw [bumpCount_other _ _ _ hk']
        rw [List.filter_append]
        have hsing : List.filter (fun r => decide (r.entity_id = i'))
            [rowOf st.entity_dict sid (k, fl)] = [] := by
          simp only [List.filter_cons, List.filter_nil]
          have hne : (rowOf st.entity_dict sid (k, fl)).entity_id ≠ i' := by
            simp only [rowOf, hi0, Option.getD_some]
            intro hh
            exact hk' (dict_id_inj st hI k' k i' h' (hh ▸ hi0))
          simp [hne]
        rw [hsing, List.append_nil]
        exact hI.counts_rows k' i' h'
    · intro k' i' h'
      rw [hdict] at h'
      rw [processKey_counts]
      by_cases hk' : k' = k
      · subst hk'
        rw [bumpCount_self]
        simp
      · rw [bumpCount_other _ _ _ hk']
        exact hI.counts_pos k' i' h'
  · have hn : dictFind st.entity_dict k = none := Option.not_isSome_iff_eq_none.mp hp
    have hdict : (processKey sid st k fl).entity_dict =
        st.entity_dict ++ [(k, st.next_entity_id)] := by
      rw [processKey_dict, if_neg hp]
    have hnext : (processKey sid st k fl).next_entity_id = st.next_entity_id + 1 := by
      rw [processKey_next, if_neg hp]
    have hself : dictFind (st.entity_dict ++ [(k, st.next_entity_id)]) k =
        some st.next_entity_id := by
      rw [dictFind_append_single, hn]
      simp
    have hother : ∀ k', k' ≠ k →
        dictFind (st.entity_dict ++ [(k, st.next_entity_id)]) k' =
          dictFind st.entity_dict k' := by
      intro k' hk'
      rw [dictFind_append_single]
      cases he : dictFind st.entity_dict k' with
      | none =>
        show (if k = k' then some st.next_entity_id else none) = none
        rw [if_neg (fun hh : k = k' => hk' hh.symm)]
      | some w => rfl
    have hrow : (processKey sid st k fl).story_entity_rows =
        st.story_entity_rows ++
          [rowOf (st.entity_dict ++ [(k, st.next_entity_id)]) sid (k, fl)] := by
      rw [processKey_rows, hdict]
    have hroweid : (rowOf (st.entity_dict ++ [(k, st.next_entity_id)]) sid (k, fl)).entity_id =
        st.next_entity_id := by
      simp [rowOf, hself]
    constructor
    · rw [hnext, hdict]
      simp only [List.length_append, List.length_cons, List.length_nil]
      rw [hI.next_eq]
    · rw [hdict]
      simp only [List.map_append, List.length_append, List.map_cons, List.map_nil,
        List.length_cons, List.length_nil]
      rw [hI.ids_range, hI.next_eq]
      have hc := List.range'_1_concat 1 st.entity_dict.length
      simp only [Nat.add_comm 1 st.entity_dict.length] at hc
      rw [← hc]
    · intro k' h'
      rw [hdict] at h'
      have hk' : k' ≠ k := by
        intro hh; subst hh; rw [hself] at h'; exact Option.noConfusion h'
      rw [processKey_counts, bumpCount_other _ _ _ hk']
      apply hI.counts_none
      rw [← hother k' hk']
      exact h'
    · intro r hr
      rw [hdict]
      rw [hrow] at hr
      simp only [List.map_append, List.map_cons, List.map_nil]
      rcases List.mem_append.mp hr with hr | hr
      · exact List.mem_append.mpr (Or.inl (hI.rows_eid_mem r hr))
      · simp only [List.mem_singleton] at hr
        subst hr
        rw [hroweid]
        simp
    · intro k' i' h'
      rw [hdict] at h'
      rw [processKey_counts, hrow, List.filter_append]
      by_cases hk' : k' = k
      · subst hk'
        have hii : i' = st.next_entity_id := Option.some.inj (h'.symm.trans hself)
        subst hii
        rw [bumpCount_self]
        have hzero : (dictFind st.entity_counts k').getD 0 = 0 := by
          rw [hI.counts_none k' hn]
          rfl
        rw [hzero]
        have hold : List.filter (fun r => decide (r.entity_id = st.next_entity_id))
            st.story_entity_rows = [] := by
          rw [List.filter_eq_nil_iff]
          intro r hr
          have := id_lt_next st hI
          have hmem := hI.rows_eid_mem r hr
          rw [hI.ids_range] at hmem
          have h1 := List.mem_range'_1.mp hmem
          have h2 := hI.next_eq
          simp only [decide_eq_true_eq]
          omega
        rw [hold]
        have hsing : List.filter (fun r => decide (r.entity_id = st.next_entity_id))
            [rowOf (st.entity_dict ++ [(k', st.next_entity_id)]) sid (k', fl)] =
            [rowOf (st.entity_dict ++ [(k', st.next_entity_id)]) sid (k', fl)] := by
          simp [List.filter_cons, hroweid]
        rw [hsing]
        simp
      · have hdk' : dictFind st.entity_dict k' = some i' := by
          rw [← hother k' hk']
          exact h'
        rw [bumpCount_other _ _ _ hk']
        have hsing : List.filter (fun r => decide (r.entity_id = i'))
            [rowOf (st.entity_dict ++ [(k, st.next_entity_id)]) sid (k, fl)] = [] := by
          simp only [List.filter_cons, List.filter_nil]
          have hne : (rowOf (st.entity_dict ++ [(k, st.next_entity_id)]) sid (k, fl)).entity_id ≠ i' := by
            rw [hroweid]
            have := id_lt_next st hI k' i' hdk'
            omega
          simp [hne]
        rw [hsing, List.append_nil]
        exact hI.counts_rows k' i' hdk'
    · intro k' i' h'
      rw [hdict] at h'
      rw [processKey_counts]
      by_cases hk' : k' = k
      · subst hk'
        rw [bumpCount_self]
        simp
      · rw [bumpCount_other _ _ _ hk']
        have hdk' : dictFind st.entity_dict k' = some i' := by
          rw [← hother k' hk']
          exact h'
        exact hI.counts_pos k' i' hdk'

theorem processSE_inv (sid : Nat) (se : List ((String × String) × Flags)) :
    ∀ st, BuildInv st → BuildInv (processSE sid st se) := by
  induction se with
  | nil => intro st h; exact h
  | cons e rest ih =>
    intro st h
    exact ih (processKey sid st e.1 e.2) (processKey_inv sid st e.1 e.2 h)

theorem extract_entities_inv (stories : List Story) : BuildInv (extract_entities stories) := by
  unfold extract_entities
  suffices h : ∀ l : List Story, ∀ st : BuildState, BuildInv st →
      BuildInv (l.foldl processStory st) by
    apply h
    constructor
    · rfl
    · rfl
    · intro k _; rfl
    · intro r hr; simp at hr
    · intro k i h'; exact Option.noConfusion h'
    · intro k i h'; exact Option.noConfusion h'
  intro l
  induction l with
  | nil => intro st h; exact h
  | cons s rest ih =>
    intro st h
    rw [List.foldl_cons]
    apply ih
    rw [processStory_eq]
    exact processSE_inv s.id (story_entities_of s) st h

/-! ### Helpers connecting rows back to their originating story -/

theorem row_source (stories : List Story) (r : Row)
    (hr : r ∈ (extract_entities stories).story_entity_rows) :
    ∃ s ∈ stories, ∃ e ∈ story_entities_of s,
      r = rowOf (extract_entities stories).entity_dict s.id e := by
  rw [extract_entities_rows] at hr
  obtain ⟨s, hs, hr⟩ := List.mem_flatMap.mp hr
  obtain ⟨e, he, hre⟩ := List.mem_map.mp hr
  exact ⟨s, hs, e, he, hre.symm⟩

theorem fieldFind_pos (ms : List (String × String)) (k : String × String) (c : Nat)
    (h : fieldFind (extract_entities_from_text ms) k = some c) : 1 ≤ c := by
  unfold fieldFind at h
  cases he : entFind (extract_entities_from_text ms) k.1 with
  | none => rw [he] at h; exact Option.noConfusion h
  | some p =>
    obtain ⟨ty0, c0⟩ := p
    rw [he] at h
    have h2 : (if ty0 = k.2 then some c0 else none) = some c := h
    by_cases hty : ty0 = k.2
    · rw [if_pos hty] at h2
      have hc : c0 = c := Option.some.inj h2
      subst hc
      exact extract_counts_pos ms (k.1, ty0, c0) (mem_of_entFind _ _ _ _ he)
    · rw [if_neg hty] at h2
      exact Option.noConfusion h2

theorem se_entry_flags (s : Story) (k : String × String) (fl : Flags)
    (h : (k, fl) ∈ story_entities_of s) :
    fl = expectedFlags
        (fieldFind (extract_entities_from_text s.item_what_happened) k)
        (fieldFind (extract_entities_from_text s.item_section) k)
        (fieldFind (extract_entities_from_text s.item_why_it_matters) k)
        (fieldFind (extract_entities_from_text s.title) k)
        (fieldFind (extract_entities_from_text s.body) k) ∧
      ((fieldFind (extract_entities_from_text s.item_what_happened) k).isSome ||
       (fieldFind (extract_entities_from_text s.item_section) k).isSome ||
       (fieldFind (extract_entities_from_text s.item_why_it_matters) k).isSome ||
       (fieldFind (extract_entities_from_text s.title) k).isSome ||
       (fieldFind (extract_entities_from_text s.body) k).isSome) = true := by
  have hf := seFind_of_mem_se _ _ _ (story_entities_keys_nodup s) h
  rw [seFind_story_entities] at hf
  simp only at hf
  by_cases hc : ((fieldFind (extract_entities_from_text s.item_what_happened) k).isSome ||
       (fieldFind (extract_entities_from_text s.item_section) k).isSome ||
       (fieldFind (extract_entities_from_text s.item_why_it_matters) k).isSome ||
       (fieldFind (extract_entities_from_text s.title) k).isSome ||
       (fieldFind (extract_entities_from_text s.body) k).isSome) = true
  · rw [if_pos hc] at hf
    exact ⟨(Option.some.inj hf).symm, hc⟩
  · rw [if_neg hc] at hf
    exact Option.noConfusion hf

theorem filter_map_length_le_one {α β : Type} (l : List α) (f : α → β) (p : β → Bool)
    (hN : l.Nodup)
    (h : ∀ a1 ∈ l, ∀ a2 ∈ l, p (f a1) = true → p (f a2) = true → a1 = a2) :
    (((l.map f).filter p).length ≤ 1) := by
  induction l with
  | nil => simp
  | cons a rest ih =>
    simp only [List.nodup_cons] at hN
    simp only [List.map_cons, List.filter_cons]
    by_cases hp : p (f a) = true
    · rw [if_pos hp]
      have htail : (rest.map f).filter p = [] := by
        rw [List.filter_eq_nil_iff]
        intro b hb
        obtain ⟨a2, ha2, hfa2⟩ := List.mem_map.mp hb
        intro hpb
        have : a = a2 := h a (List.mem_cons_self a rest) a2 (List.mem_cons_of_mem _ ha2) hp
          (by rw [hfa2]; exact hpb)
        subst this
        exact hN.1 ha2
      rw [htail]
      simp
    · rw [if_neg hp]
      exact ih hN.2 (fun a1 h1 a2 h2 hp1 hp2 =>
        h a1 (List.mem_cons_of_mem _ h1) a2 (List.mem_cons_of_mem _ h2) hp1 hp2)

theorem per_story_sids (stories : List Story) (s : Story) (i : Nat) (hi : 1 ≤ i) :
    ((((story_entities_of s).map
        (rowOf (extract_entities stories).entity_dict s.id)).filter
          (fun r => r.entity_id = i)).map Row.story_id) = [] ∨
    ((((story_entities_of s).map
        (rowOf (extract_entities stories).entity_dict s.id)).filter
          (fun r => r.entity_id = i)).map Row.story_id) = [s.id] := by
  have hIE := extract_entities_inv stories
  have hkN := story_entities_keys_nodup s
  have hlen : (((story_entities_of s).map
      (rowOf (extract_entities stories).entity_dict s.id)).filter
        (fun r => r.entity_id = i)).length ≤ 1 := by
    apply filter_map_length_le_one _ _ _ (List.Nodup.of_map _ hkN)
    intro e1 h1 e2 h2 hp1 hp2
    simp only [rowOf, decide_eq_true_eq] at hp1 hp2
    have hd1 : dictFind (extract_entities stories).entity_dict e1.1 = some i := by
      cases hc : dictFind (extract_entities stories).entity_dict e1.1 with
      | none => rw [hc] at hp1; simp at hp1; omega
      | some w => rw [hc] at hp1; simp at hp1; rw [hp1]
    have hd2 : dictFind (extract_entities stories).entity_dict e2.1 = some i := by
      cases hc : dictFind (extract_entities stories).entity_dict e2.1 with
      | none => rw [hc] at hp2; simp at hp2; omega
      | some w => rw [hc] at hp2; simp at hp2; rw [hp2]
    have hkey := dict_id_inj _ hIE e1.1 e2.1 i hd1 hd2
    exact List.inj_on_of_nodup_map hkN h1 h2 hkey
  cases hl : ((story_entities_of s).map
      (rowOf (extract_entities stories).entity_dict s.id)).filter
        (fun r => r.entity_id = i) with
  | nil => left; rfl
  | cons r tail =>
    cases htail : tail with
    | cons r2 t2 =>
      rw [hl, htail] at hlen
      simp at hlen
    | nil =>
      right
      have hr : r ∈ ((story_entities_of s).map
          (rowOf (extract_entities stories).entity_dict s.id)).filter
            (fun r => r.entity_id = i) := by
        rw [hl, htail]
        simp
      have hr2 := List.mem_filter.mp hr
      obtain ⟨e, _, hre⟩ := List.mem_map.mp hr2.1
      have hsid : r.story_id = s.id := by rw [← hre]; rfl
      simp [hsid]

theorem nodup_flatMap_sub (l : List Story) (g : Story → List Nat)
    (hg : ∀ s ∈ l, g s = [] ∨ g s = [s.id]) (h : (l.map Story.id).Nodup) :
    (l.flatMap g).Nodup := by
  induction l with
  | nil => simp
  | cons s rest ih =>
    simp only [List.map_cons, List.nodup_cons] at h
    rw [List.flatMap_cons]
    rcases hg s (List.mem_cons_self s rest) with hs | hs
    · rw [hs, List.nil_append]
      exact ih (fun s' hs' => hg s' (List.mem_cons_of_mem _ hs')) h.2
    · rw [hs, List.singleton_append]
      rw [List.nodup_cons]
      constructor
      · intro hc
        obtain ⟨s', hs', hmem⟩ := List.mem_flatMap.mp hc
        rcases hg s' (List.mem_cons_of_mem _ hs') with hs'' | hs''
        · rw [hs''] at hmem; simp at hmem
        · rw [hs''] at hmem
          simp only [List.mem_singleton] at hmem
          apply h.1
          rw [hmem]
          exact List.mem_map.mpr ⟨s', hs', rfl⟩
      · exact ih (fun s' hs' => hg s' (List.mem_cons_of_mem _ hs')) h.2

theorem rows_sids_nodup (stories : List Story) (h : (stories.map Story.id).Nodup) (i : Nat)
    (hi : 1 ≤ i) :
    ((((extract_entities stories).story_entity_rows.filter
      (fun r => r.entity_id = i)).map Row.story_id)).Nodup := by
  rw [extract_entities_rows, List.filter_flatMap, List.map_flatMap]
  apply nodup_flatMap_sub _ _ _ h
  intro s _
  exact per_story_sids stories s i hi

/-! ### Lemmas about the exporter's ordering -/

theorem mem_insertByScore (l : List ViewRow) (row x : ViewRow) :
    x ∈ insertByScore l row ↔ x = row ∨ x ∈ l := by
  induction l with
  | nil => simp [insertByScore]
  | cons y ys ih =>
    simp only [insertByScore]
    by_cases h : y.total_score < row.total_score
    · rw [if_pos h]
      simp
    · rw [if_neg h]
      simp only [List.mem_cons, ih]
      constructor
      · intro hh
        rcases hh with hh | hh | hh
        · exact Or.inr (Or.inl hh)
        · exact Or.inl hh
        · exact Or.inr (Or.inr hh)
      · intro hh
        rcases hh with hh | hh | hh
        · exact Or.inr (Or.inl hh)
        · exact Or.inl hh
        · exact Or.inr (Or.inr hh)

theorem insertByScore_sorted (l : List ViewRow) (row : ViewRow)
    (h : l.Pairwise (fun a b => b.total_score ≤ a.total_score)) :
    (insertByScore l row).Pairwise (fun a b => b.total_score ≤ a.total_score) := by
  induction l with
  | nil => simp [insertByScore]
  | cons y ys ih =>
    rw [List.pairwise_cons] at h
    simp only [insertByScore]
    by_cases hlt : y.total_score < row.total_score
    · rw [if_pos hlt]
      rw [List.pairwise_cons]
      constructor
      · intro z hz
        rcases List.mem_cons.mp hz with hz | hz
        · subst hz; exact le_of_lt hlt
        · exact le_trans (h.1 z hz) (le_of_lt hlt)
      · rw [List.pairwise_cons]
        exact ⟨h.1, h.2⟩
    · rw [if_neg hlt]
      rw [List.pairwise_cons]
      constructor
      · intro z hz
        rcases (mem_insertByScore ys row z).mp hz with hz | hz
        · subst hz
          exact le_of_not_lt hlt
        · exact h.1 z hz
      · exact ih h.2

theorem insertByScore_filter (l : List ViewRow) (row : ViewRow) (v : Nat)
    (hs : l.Pairwise (fun a b => b.total_score ≤ a.total_score)) :
    (insertByScore l row).filter (fun r => r.total_score = v) =
      if row.total_score = v then
        l.filter (fun r => r.total_score = v) ++ [row]
      else l.filter (fun r => r.total_score = v) := by
  induction l with
  | nil =>
    simp only [insertByScore, List.filter_nil]
    by_cases h : row.total_score = v
    · rw [if_pos h]
      simp [List.filter_cons, h]
    · rw [if_neg h]
      simp [List.filter_cons, h]
  | cons y ys ih =>
    rw [List.pairwise_cons] at hs
    simp only [insertByScore]
    by_cases hlt : y.total_score < row.total_score
    · rw [if_pos hlt]
      by_cases hv : row.total_score = v
      · rw [if_pos hv]
        have htail : (y :: ys).filter (fun r => r.total_score = v) = [] := by
          rw [List.filter_eq_nil_iff]
          intro z hz
          simp only [decide_eq_true_eq]
          intro hzv
          rcases List.mem_cons.mp hz with hz | hz
          · subst hz; rw [hzv] at hlt; rw [hv] at hlt; exact lt_irrefl v hlt
          · have := hs.1 z hz
            rw [hzv, ← hv] at this
            exact absurd (lt_of_lt_of_le hlt this) (lt_irrefl _)
        rw [htail]
        simp [List.filter_cons, hv, htail]
      · rw [if_neg hv]
        simp [List.filter_cons, hv]
    · rw [if_neg hlt]
      simp only [List.filter_cons]
      by_cases hy : y.total_score = v
      · rw [if_pos (by simp [hy]), ih hs.2]
        by_cases hv : row.total_score = v
        · rw [if_pos hv, if_pos hv]
          simp [List.filter_cons, hy]
        · rw [if_neg hv, if_neg hv]
          simp [List.filter_cons, hy]
      · rw [if_neg (by simp [hy]), ih hs.2]
        by_cases hv : row.total_score = v
        · rw [if_pos hv, if_pos hv]
          simp [List.filter_cons, hy]
        · rw [if_neg hv, if_neg hv]
          simp [List.filter_cons, hy]

theorem orderBy_go (l : List ViewRow) :
    ∀ acc, acc.Pairwise (fun a b => b.total_score ≤ a.total_score) →
      (l.foldl insertByScore acc).Pairwise (fun a b => b.total_score ≤ a.total_score) ∧
      ∀ v : Nat, (l.foldl insertByScore acc).filter (fun r => r.total_score = v) =
        acc.filter (fun r => r.total_score = v) ++ l.filter (fun r => r.total_score = v) := by
  induction l with
  | nil => intro acc h; exact ⟨h, fun v => by simp⟩
  | cons row rest ih =>
    intro acc h
    rw [List.foldl_cons]
    obtain ⟨hp, hf⟩ := ih (insertByScore acc row) (insertByScore_sorted acc row h)
    refine ⟨hp, fun v => ?_⟩
    rw [hf v, insertByScore_filter acc row v h]
    simp only [List.filter_cons]
    by_cases hv : row.total_score = v
    · rw [if_pos hv]
      simp [hv]
    · rw [if_neg hv]
      simp [hv]

theorem orderByTotalScoreDesc_sorted (l : List ViewRow) :
    (orderByTotalScoreDesc l).Pairwise (fun a b => b.total_score ≤ a.total_score) := by
  exact (orderBy_go l [] (by simp)).1

theorem orderByTotalScoreDesc_stable (l : List ViewRow) (v : Nat) :
    (orderByTotalScoreDesc l).filter (fun r => r.total_score = v) =
      l.filter (fun r => r.total_score = v) := by
  have := (orderBy_go l [] (by simp)).2 v
  simpa using this

theorem foldl_stories_present (l : List Story) :
    ∀ st s, s ∈ l → ∀ e ∈ story_entities_of s,
      ((dictFind (l.foldl processStory st).entity_dict e.1).isSome) = true := by
  induction l with
  | nil => intro st s hs; simp at hs
  | cons s0 rest ih =>
    intro st s hs e he
    rw [List.foldl_cons]
    rcases List.mem_cons.mp hs with hs | hs
    · subst hs
      have hp : ((dictFind (processStory st s).entity_dict e.1).isSome) = true := by
        rw [processStory_eq]
        exact processSE_present s.id _ st e he
      obtain ⟨v, hv⟩ := Option.isSome_iff_exists.mp hp
      rw [foldl_stories_mono rest _ e.1 v hv]
      rfl
    · exact ih _ s hs e he

theorem extract_key_present (stories : List Story) (s : Story) (hs : s ∈ stories)
    (e : (String × String) × Flags) (he : e ∈ story_entities_of s) :
    ((dictFind (extract_entities stories).entity_dict e.1).isSome) = true := by
  unfold extract_entities
  exact foldl_stories_present stories ⟨[], 1, [], []⟩ s hs e he

theorem contrib_ge_weight (w c : Nat) (hc : 1 ≤ c) : w ≤ contrib w (some c) := by
  unfold contrib
  have h1 : 1 ≤ min c MAX_APPEARANCES := by
    unfold MAX_APPEARANCES
    omega
  calc w = w * 1 := by omega
  _ ≤ w * min c MAX_APPEARANCES := Nat.mul_le_mul_left w h1

theorem contrib_ite (w : Nat) (o : Option Nat) :
    (if o.isSome = true then w * min (o.getD 0) MAX_APPEARANCES else 0) = contrib w o := by
  cases o <;> simp [contrib]

/-! ### The claims -/

/-- Claim C5: the spec asserts that the mention filter rejects every mention
whose lowercased trimmed text is in the stopword set, which includes weekday
and month names, so that weekday/month mentions are rejected. The code stores
the weekday/month entries capitalized but compares the lowercased text against
the set, so those entries can never match: the mentions "Monday" and "January"
are accepted by `is_valid_entity` even though both words are members of
`FALSE_POSITIVES`. -/
theorem C5_weekday_month_mentions_accepted :
    FALSE_POSITIVES.contains ("Monday") = true ∧
    FALSE_POSITIVES.contains ("January") = true ∧
    is_valid_entity ("Monday") = true ∧
    is_valid_entity ("January") = true := by
  decide

/-- Claim C6: the spec asserts that short mentions on the acronym allow-list
(US, UK, EU, UN) are accepted. The code compares `text.lower()` against the
uppercase allow-list, so the test never matches and every length-two mention
is rejected, including all four allow-listed acronyms. -/
theorem C6_short_acronyms_rejected :
    is_valid_entity ("US") = false ∧ is_valid_entity ("UK") = false ∧
    is_valid_entity ("EU") = false ∧ is_valid_entity ("UN") = false := by
  decide

/-- Claim C2, counterexample: the same surface name recognized with two
different types (PERSON then GPE) within one field yields a single merged
entity with the first-seen type and summed count, not two distinct
(name, type) entities. -/
theorem C2_counterexample :
    extract_entities_from_text [("Jordan", "PERSON"), ("Jordan", "GPE")] =
      [("Jordan", "person", 2)] ∧
    (extract_entities_from_text [("Jordan", "PERSON"), ("Jordan", "GPE")]).length = 1 := by
  decide

/-- Claim C2, amended: if the same surface name is recognized in one field,
possibly with different types, all its accepted mentions are merged into a
single dictionary entry keyed by the stripped surface text, whose type is the
mapped type of the first accepted mention of that text and whose count is the
total number of accepted mentions of that text across all types. -/
theorem C2_merged_under_first_type (ms : List (String × String)) (t ty : String) (c : Nat)
    (h : (t, ty, c) ∈ extract_entities_from_text ms) :
    (extract_entities_from_text ms).countP (fun e => e.1 == t) = 1 ∧
    c = countAcceptedMentions ms t ∧
    firstAcceptedType ms t = some ty := by
  have hN := extract_names_nodup ms
  have hf := entFind_of_mem _ _ _ _ hN h
  have hx := entFind_extract ms t
  rw [hf] at hx
  refine ⟨?_, ?_⟩
  · have hmem : t ∈ (extract_entities_from_text ms).map (fun e => e.1) :=
      List.mem_map.mpr ⟨(t, ty, c), h, rfl⟩
    have hcount := List.count_eq_one_of_mem hN hmem
    have hcp : ((extract_entities_from_text ms).map (fun e => e.1)).countP (fun x => x == t)
        = (extract_entities_from_text ms).countP (fun e => e.1 == t) := by
      rw [List.countP_map]
      rfl
    rw [← hcp]
    exact hcount
  · cases hfa : firstAcceptedType ms t with
    | none =>
      rw [hfa] at hx
      exact Option.noConfusion hx
    | some ty' =>
      rw [hfa] at hx
      have hx2 : some (ty, c) = some (ty', countAcceptedMentions ms t) := hx
      have hp := Option.some.inj hx2
      simp only [Prod.mk.injEq] at hp
      refine ⟨hp.2, ?_⟩
      rw [hp.1]

theorem C2_witness :
    ("Jordan", "person", 2) ∈
        extract_entities_from_text [("Jordan", "PERSON"), ("Jordan", "GPE")] ∧
    ((extract_entities_from_text [("Jordan", "PERSON"), ("Jordan", "GPE")]).countP
        (fun e => e.1 == "Jordan") = 1 ∧
      2 = countAcceptedMentions [("Jordan", "PERSON"), ("Jordan", "GPE")] ("Jordan") ∧
      firstAcceptedType [("Jordan", "PERSON"), ("Jordan", "GPE")] ("Jordan") = some ("person")) :=
  ⟨by decide, C2_merged_under_first_type [("Jordan", "PERSON"), ("Jordan", "GPE")]
    ("Jordan") ("person") 2 (by decide)⟩

/-- The keys the build encounters, deduplicated in first-seen order over the
traversal of the corpus. -/
def firstSeenKeys (stories : List Story) : List (String × String) :=
  addKeys [] (stories.flatMap storyKeys)

/-- Claim C3: traversing documents in the given (ascending-id) order, each new
(name, type) key receives the next sequential id starting at 1, in first-seen
order, so the whole dictionary — and hence every assigned id — is the
deterministic function shown of the corpus alone: the first-seen key list
zipped with 1, 2, 3, ... . -/
theorem C3_sequential_first_seen_ids (stories : List Story) :
    (extract_entities stories).entity_dict =
      (firstSeenKeys stories).zip (List.range' 1 (firstSeenKeys stories).length) ∧
    (extract_entities stories).next_entity_id = (firstSeenKeys stories).length + 1 := by
  have hk := extract_entities_keys stories
  have hi := extract_entities_ids stories
  have hlen : (extract_entities stories).entity_dict.length = (firstSeenKeys stories).length := by
    unfold firstSeenKeys
    rw [← hk]
    simp
  constructor
  · apply List.zip_of_prod
    · unfold firstSeenKeys
      exact hk
    · rw [← hlen]
      exact hi.2
  · rw [← hlen]
    exact hi.1

/-- Claim C7: every entity id referenced by a story-entity relation row exists
as an id in the entity catalog written by `write_to_database`; no orphaned
relation rows. -/
theorem C7_referential_integrity (stories : List Story) :
    ∀ r ∈ (extract_entities stories).story_entity_rows,
      ∃ e ∈ entity_table (extract_entities stories), e.id = r.entity_id := by
  intro r hr
  have hmem := (extract_entities_inv stories).rows_eid_mem r hr
  obtain ⟨p, hp, hpe⟩ := List.mem_map.mp hmem
  refine ⟨⟨p.2, p.1.1, p.1.2,
    (dictFind (extract_entities stories).entity_counts p.1).getD 0, true⟩, ?_, hpe⟩
  unfold entity_table
  exact List.mem_map.mpr ⟨p, hp, rfl⟩

/-- Claim C10: every entity row of the catalog has a document count of at
least one, since a key enters `entity_dict` only in the same loop iteration
that increments its count and appends a relation row. -/
theorem C10_entity_count_positive (stories : List Story) :
    ∀ e ∈ entity_table (extract_entities stories), 1 ≤ e.count := by
  intro e he
  unfold entity_table at he
  obtain ⟨p, hp, hpe⟩ := List.mem_map.mp he
  subst hpe
  have hd : dictFind (extract_entities stories).entity_dict p.1 = some p.2 :=
    dictFind_of_mem _ _ _ (extract_entities_keys_nodup stories) hp
  exact (extract_entities_inv stories).counts_pos p.1 p.2 hd

/-- Claim C8 (the view `entity_stories_view` and the SQL ORDER BY are modelled
from the spec, being code of the repository outside src/): the exporter emits
one compact record per entity carrying exactly name, type and the document id
list — no score field exists in the emitted record type — in an order sorted
by total score descending, and, for every score value, tied entities keep
their original catalog (insertion/id) order. -/
theorem C8_export_ranked_compact (st : BuildState) :
    make_entities_json st =
      (orderByTotalScoreDesc (entity_stories_view st)).map
        (fun r => ⟨r.name, r.type, r.story_ids⟩) ∧
    (orderByTotalScoreDesc (entity_stories_view st)).Pairwise
      (fun a b => b.total_score ≤ a.total_score) ∧
    ∀ v : Nat, (orderByTotalScoreDesc (entity_stories_view st)).filter
        (fun r => r.total_score = v) =
      (entity_stories_view st).filter (fun r => r.total_score = v) :=
  ⟨rfl, orderByTotalScoreDesc_sorted (entity_stories_view st),
    fun v => orderByTotalScoreDesc_stable (entity_stories_view st) v⟩

/-- Concrete corpus used by the witnesses: one story mentioning Acme Corp ten
times in `item_what_happened` and once in `body`, and one story mentioning
Jane Doe once. -/
def storyAcme : Story :=
  ⟨1, List.replicate 10 ("Acme Corp", "ORG"), [], [], [], [("Acme Corp", "ORG")]⟩

/-- Second witness story. -/
def storyJane : Story := ⟨2, [("Jane Doe", "PERSON")], [], [], [], []⟩

/-- Third witness story, a second document mentioning Jane Doe. -/
def storyJane2 : Story := ⟨3, [("Jane Doe", "PERSON")], [], [], [], []⟩

/-- The relation row the build produces for Acme Corp in `storyAcme`:
score 4 * 3 + 2 * 1 = 14 (the ten `item_what_happened` occurrences are capped
at three). -/
def rowAcme : Row := ⟨1, 1, 14, true, false, false, false, true⟩

theorem C7_witness :
    rowAcme ∈ (extract_entities [storyAcme, storyJane]).story_entity_rows ∧
    (∃ e ∈ entity_table (extract_entities [storyAcme, storyJane]),
      e.id = rowAcme.entity_id) :=
  ⟨by decide, C7_referential_integrity [storyAcme, storyJane] rowAcme (by decide)⟩

theorem C10_witness :
    (⟨2, "Jane Doe", "person", 1, true⟩ : EntityRow) ∈
        entity_table (extract_entities [storyAcme, storyJane]) ∧
    1 ≤ (⟨2, "Jane Doe", "person", 1, true⟩ : EntityRow).count :=
  ⟨by decide, C10_entity_count_positive [storyAcme, storyJane]
    ⟨2, "Jane Doe", "person", 1, true⟩ (by decide)⟩

/-- Claim C9: every relation row the build produces has at least one
field-presence flag set and a strictly positive score that is at least the
smallest configured field weight (the weight of `body`, 2): every entry of
`story_entities` is created inside some per-field loop, which sets that
field's flag and adds its weight times a capped count of at least one. -/
theorem C9_rows_flagged_and_scored (stories : List Story) :
    ∀ r ∈ (extract_entities stories).story_entity_rows,
      (r.in_item_what_happened || r.in_item_section || r.in_item_why_it_matters ||
        r.in_title || r.in_body) = true ∧
      FIELD_WEIGHTS ("body") ≤ r.score ∧ 0 < r.score := by
  intro r hr
  obtain ⟨s, hs, e, he, hre⟩ := row_source stories r hr
  obtain ⟨k, fl⟩ := e
  obtain ⟨hfl, hor⟩ := se_entry_flags s k fl he
  subst hre
  rw [hfl]
  simp only [rowOf, expectedFlags]
  refine ⟨by simpa using hor, ?_⟩
  simp only [Bool.or_eq_true] at hor
  rcases hor with ((((h | h) | h) | h) | h) <;>
    · obtain ⟨c, hc⟩ := Option.isSome_iff_exists.mp h
      have h1 := fieldFind_pos _ _ _ hc
      have hgeA := contrib_ge_weight (FIELD_WEIGHTS ("item_what_happened")) c h1
      have hgeB := contrib_ge_weight (FIELD_WEIGHTS ("item_section")) c h1
      have hgeC := contrib_ge_weight (FIELD_WEIGHTS ("item_why_it_matters")) c h1
      have hgeD := contrib_ge_weight (FIELD_WEIGHTS ("title")) c h1
      have hgeE := contrib_ge_weight (FIELD_WEIGHTS ("body")) c h1
      have hwA : FIELD_WEIGHTS ("item_what_happened") = 4 := by decide
      have hwB : FIELD_WEIGHTS ("item_section") = 3 := by decide
      have hwC : FIELD_WEIGHTS ("item_why_it_matters") = 3 := by decide
      have hwD : FIELD_WEIGHTS ("title") = 2 := by decide
      have hwE : FIELD_WEIGHTS ("body") = 2 := by decide
      rw [hc]
      omega

theorem C9_witness :
    rowAcme ∈ (extract_entities [storyAcme, storyJane]).story_entity_rows ∧
    ((rowAcme.in_item_what_happened || rowAcme.in_item_section ||
        rowAcme.in_item_why_it_matters || rowAcme.in_title || rowAcme.in_body) = true ∧
      FIELD_WEIGHTS ("body") ≤ rowAcme.score ∧ 0 < rowAcme.score) :=
  ⟨by decide, C9_rows_flagged_and_scored [storyAcme, storyJane] rowAcme (by decide)⟩

/-- Claim C1: for every relation row the build produces there are a source
story and a (name, type) key resolving to the row's entity id such that each
field-presence flag records exactly whether the key occurs in that field's
dictionary, and the stored score is the sum, over exactly the fields whose
presence flag is true, of the field's fixed weight times the capped
occurrence count min(count, MAX_APPEARANCES); a field whose flag is false
contributes 0, and the min cap makes a field with ten occurrences contribute
weight times three, not more (the witness exercises this with ten mentions). -/
theorem C1_presence_score_consistency (stories : List Story) :
    ∀ r ∈ (extract_entities stories).story_entity_rows,
      ∃ s ∈ stories, ∃ k : String × String,
        r.story_id = s.id ∧
        dictFind (extract_entities stories).entity_dict k = some r.entity_id ∧
        r.in_item_what_happened =
          (fieldFind (extract_entities_from_text s.item_what_happened) k).isSome ∧
        r.in_item_section =
          (fieldFind (extract_entities_from_text s.item_section) k).isSome ∧
        r.in_item_why_it_matters =
          (fieldFind (extract_entities_from_text s.item_why_it_matters) k).isSome ∧
        r.in_title = (fieldFind (extract_entities_from_text s.title) k).isSome ∧
        r.in_body = (fieldFind (extract_entities_from_text s.body) k).isSome ∧
        r.score =
          (if r.in_item_what_happened = true then
            FIELD_WEIGHTS ("item_what_happened") *
              min ((fieldFind (extract_entities_from_text s.item_what_happened) k).getD 0)
                MAX_APPEARANCES
          else 0) +
          (if r.in_item_section = true then
            FIELD_WEIGHTS ("item_section") *
              min ((fieldFind (extract_entities_from_text s.item_section) k).getD 0)
                MAX_APPEARANCES
          else 0) +
          (if r.in_item_why_it_matters = true then
            FIELD_WEIGHTS ("item_why_it_matters") *
              min ((fieldFind (extract_entities_from_text s.item_why_it_matters) k).getD 0)
                MAX_APPEARANCES
          else 0) +
          (if r.in_title = true then
            FIELD_WEIGHTS ("title") *
              min ((fieldFind (extract_entities_from_text s.title) k).getD 0)
                MAX_APPEARANCES
          else 0) +
          (if r.in_body = true then
            FIELD_WEIGHTS ("body") *
              min ((fieldFind (extract_entities_from_text s.body) k).getD 0)
                MAX_APPEARANCES
          else 0) := by
  intro r hr
  obtain ⟨s, hs, e, he, hre⟩ := row_source stories r hr
  obtain ⟨k, fl⟩ := e
  obtain ⟨hfl, _⟩ := se_entry_flags s k fl he
  have hp := extract_key_present stories s hs (k, fl) he
  obtain ⟨i, hi⟩ := Option.isSome_iff_exists.mp hp
  subst hre
  refine ⟨s, hs, k, rfl, ?_, ?_, ?_, ?_, ?_, ?_, ?_⟩
  · simp only [rowOf]
    rw [hi]
    rfl
  · rw [hfl]
    rfl
  · rw [hfl]
    rfl
  · rw [hfl]
    rfl
  · rw [hfl]
    rfl
  · rw [hfl]
    rfl
  · rw [hfl]
    simp only [rowOf, expectedFlags, contrib_ite]

theorem C1_witness :
    rowAcme ∈ (extract_entities [storyAcme, storyJane]).story_entity_rows ∧
    (∃ s ∈ [storyAcme, storyJane], ∃ k : String × String,
      rowAcme.story_id = s.id ∧
      dictFind (extract_entities [storyAcme, storyJane]).entity_dict k =
        some rowAcme.entity_id ∧
      rowAcme.in_item_what_happened =
        (fieldFind (extract_entities_from_text s.item_what_happened) k).isSome ∧
      rowAcme.in_item_section =
        (fieldFind (extract_entities_from_text s.item_section) k).isSome ∧
      rowAcme.in_item_why_it_matters =
        (fieldFind (extract_entities_from_text s.item_why_it_matters) k).isSome ∧
      rowAcme.in_title = (fieldFind (extract_entities_from_text s.title) k).isSome ∧
      rowAcme.in_body = (fieldFind (extract_entities_from_text s.body) k).isSome ∧
      rowAcme.score =
        (if rowAcme.in_item_what_happened = true then
          FIELD_WEIGHTS ("item_what_happened") *
            min ((fieldFind (extract_entities_from_text s.item_what_happened) k).getD 0)
              MAX_APPEARANCES
        else 0) +
        (if rowAcme.in_item_section = true then
          FIELD_WEIGHTS ("item_section") *
            min ((fieldFind (extract_entities_from_text s.item_section) k).getD 0)
              MAX_APPEARANCES
        else 0) +
        (if rowAcme.in_item_why_it_matters = true then
          FIELD_WEIGHTS ("item_why_it_matters") *
            min ((fieldFind (extract_entities_from_text s.item_why_it_matters) k).getD 0)
              MAX_APPEARANCES
        else 0) +
        (if rowAcme.in_title = true then
          FIELD_WEIGHTS ("title") *
            min ((fieldFind (extract_entities_from_text s.title) k).getD 0)
              MAX_APPEARANCES
        else 0) +
        (if rowAcme.in_body = true then
          FIELD_WEIGHTS ("body") *
            min ((fieldFind (extract_entities_from_text s.body) k).getD 0)
              MAX_APPEARANCES
        else 0)) :=
  ⟨by decide, C1_presence_score_consistency [storyAcme, storyJane] rowAcme (by decide)⟩

/-- Claim C4: assuming the corpus presents each document id once (they are
primary keys selected once by `get_stories`), every catalog entity's `count`
column equals the number of distinct documents having a relation row for that
entity: the counter is bumped exactly once per document per key, never per
mention. -/
theorem C4_document_count (stories : List Story) (h : (stories.map Story.id).Nodup) :
    ∀ e ∈ entity_table (extract_entities stories),
      e.count = ((((extract_entities stories).story_entity_rows.filter
          (fun r => r.entity_id = e.id)).map Row.story_id).dedup).length := by
  intro e he
  unfold entity_table at he
  obtain ⟨p, hp, hpe⟩ := List.mem_map.mp he
  subst hpe
  show (dictFind (extract_entities stories).entity_counts p.1).getD 0 =
    ((((extract_entities stories).story_entity_rows.filter
      (fun r => r.entity_id = p.2)).map Row.story_id).dedup).length
  have hd : dictFind (extract_entities stories).entity_dict p.1 = some p.2 := by
    apply dictFind_of_mem _ _ _ (extract_entities_keys_nodup stories)
    exact hp
  have hI := extract_entities_inv stories
  have hcount := hI.counts_rows p.1 p.2 hd
  have h1le : 1 ≤ p.2 := by
    have hmem : p.2 ∈ (extract_entities stories).entity_dict.map (fun e => e.2) :=
      List.mem_map.mpr ⟨p, hp, rfl⟩
    rw [(extract_entities_ids stories).2] at hmem
    exact (List.mem_range'_1.mp hmem).1
  have hnodup := rows_sids_nodup stories h p.2 h1le
  rw [List.Nodup.dedup hnodup, List.length_map]
  exact hcount

theorem C4_witness :
    (([storyJane, storyJane2].map Story.id).Nodup) ∧
    (⟨1, "Jane Doe", "person", 2, true⟩ : EntityRow) ∈
        entity_table (extract_entities [storyJane, storyJane2]) ∧
    (⟨1, "Jane Doe", "person", 2, true⟩ : EntityRow).count =
      ((((extract_entities [storyJane, storyJane2]).story_entity_rows.filter
          (fun r => r.entity_id = (⟨1, "Jane Doe", "person", 2, true⟩ : EntityRow).id)).map
            Row.story_id).dedup).length :=
  ⟨by decide, by decide,
    C4_document_count [storyJane, storyJane2] (by decide)
      ⟨1, "Jane Doe", "person", 2, true⟩ (by decide)⟩
